import Mathlib

/-!
Verification of the LONG toolchain (`longi.py` host interpreter and `longc.py`
bytecode compiler) against its specification.

Embedding conventions:
* Python strings are embedded as `List Char` (`Str`).
* Python dicts preserve insertion order; they are embedded as association
  lists where assignment replaces the value of an existing key in place and
  appends a fresh key at the end (`updateA`), and lookup finds the unique
  binding (`lookupA`).
* `time.time()` timestamps are threaded through as explicit `Nat` arguments.
* Block ids are `Nat`; the Python code stores them as their decimal strings
  (`str(block_id)`), a JSON-key artifact on which `Nat.repr` is injective, so
  keying by the number itself is faithful.
* Printing to stdout is modelled, where a claim needs it, as appending the
  message to an `out : List Str` log.
-/

namespace Long

/-- Python strings are modelled as lists of characters. -/
abbrev Str := List Char

/-- Conversion from Lean string literals to the character-list embedding. -/
def strE (s : String) : Str := s.data

/-- Python `str.isspace` characters relevant to `str.strip()`. -/
def pyIsSpace (c : Char) : Bool :=
  c = ' ' || c = '\t' || c = '\n' || c = '\x0d' || c = '\x0b' || c = '\x0c'

/-- Python `str.lstrip()`. -/
def pyLstrip (s : Str) : Str := s.dropWhile pyIsSpace

/-- Python `str.rstrip()`. -/
def pyRstrip (s : Str) : Str := ((s.reverse).dropWhile pyIsSpace).reverse

/-- Python `str.strip()`. -/
def pyStrip (s : Str) : Str := pyRstrip (pyLstrip s)

/-- Python `str.strip(chars)`: remove any of `cs` from both ends. -/
def pyStripChars (cs : List Char) (s : Str) : Str :=
  (((s.dropWhile (· ∈ cs)).reverse).dropWhile (· ∈ cs)).reverse

/-- Python `str.lower()` restricted to ASCII, which covers every string the
programs lower-case. -/
def strLower (s : Str) : Str := s.map Char.toLower

/-- Python `str.upper()` restricted to ASCII. -/
def strUpper (s : Str) : Str := s.map Char.toUpper

/-- First character test (`s.startswith(c)` for a single character). -/
def startsWithC (s : Str) (c : Char) : Bool :=
  match s with
  | [] => false
  | x :: _ => x = c

/-- Last character test (`s.endswith(c)` for a single character). -/
def endsWithC (s : Str) (c : Char) : Bool :=
  match s.getLast? with
  | none => false
  | some x => x = c

/-- Python `needle in haystack` / `str.find(...) != -1` for substrings. -/
def containsSub (s pat : Str) : Bool :=
  match s with
  | [] => pat.isEmpty
  | _ :: t => pat.isPrefixOf s || containsSub t pat

/-- Dict lookup (`d.get(k)` / `d[k]`): the binding of `k` if present.
Python dicts are embedded as insertion-ordered association lists. -/
def lookupA {κ β : Type} [DecidableEq κ] (m : List (κ × β)) (k : κ) :
    Option β :=
  match m with
  | [] => none
  | (k', v) :: t => if k' = k then some v else lookupA t k

/-- Dict assignment (`d[k] = v`): replace in place, else append. -/
def updateA {κ β : Type} [DecidableEq κ] (m : List (κ × β)) (k : κ) (v : β) :
    List (κ × β) :=
  match m with
  | [] => [(k, v)]
  | (k', v') :: t => if k' = k then (k, v) :: t else (k', v') :: updateA t k v

/-- Scanner for `replaceAll`, structurally recursive on a fuel bound so that
it evaluates inside the kernel; every step consumes at least one character,
so fuel equal to the string length is always enough. -/
def replaceAllGo (pat rep : Str) : Nat → Str → Str
  | _, [] => []
  | 0, s => s
  | fuel + 1, c :: t =>
    if pat ≠ [] ∧ pat.isPrefixOf (c :: t) then
      rep ++ replaceAllGo pat rep fuel (t.drop (pat.length - 1))
    else
      c :: replaceAllGo pat rep fuel t

/-- Python `s.replace(old, new)`: replace all non-overlapping occurrences,
left to right.  (The toolchain only ever calls this with a non-empty `old`,
so the empty-pattern corner of Python's `replace` is irrelevant.) -/
def replaceAll (pat rep : Str) (s : Str) : Str :=
  replaceAllGo pat rep s.length s

/-- One lazy match of the closing half of the template regex: scan for the
first occurrence of the two-character closer, stopping at a newline (the
regex dot does not cross lines).  Returns the name and the remainder after
the closer. -/
def findTemplateClose : Str → Option (Str × Str)
  | [] => none
  | c :: t =>
    if c = '\n' then none
    else if c = '`' ∧ t.head? = some '>' then some ([], t.tail)
    else match findTemplateClose t with
      | some (name, rest) => some (c :: name, rest)
      | none => none

/-- The remainder handed back by `findTemplateClose` is a suffix, hence no
longer than the input. -/
theorem findTemplateClose_length :
    ∀ (s name rest : Str), findTemplateClose s = some (name, rest) →
      rest.length ≤ s.length := by
  intro s
  induction s with
  | nil => intro name rest h; simp [findTemplateClose] at h
  | cons c t ih =>
    intro name rest h
    simp only [findTemplateClose] at h
    split at h
    · exact absurd h (by simp)
    · split at h
      · simp only [Option.some.injEq, Prod.mk.injEq] at h
        rcases h with ⟨h1, h2⟩
        subst h2
        have ht : t.tail.length ≤ t.length := by
          cases t <;> simp
        simp only [List.length_cons]
        omega
      · split at h
        next name' rest' heq =>
          simp only [Option.some.injEq, Prod.mk.injEq] at h
          rcases h with ⟨h1, h2⟩
          subst h2
          have := ih name' rest' heq
          simp only [List.length_cons]
          omega
        next => exact absurd h (by simp)

/-- Scanner for `findTemplates`, structurally recursive on a fuel bound;
every step consumes at least one character (a matched template consumes the
whole template), so fuel equal to the string length is always enough. -/
def findTemplatesGo : Nat → Str → List Str
  | _, [] => []
  | 0, _ => []
  | fuel + 1, c :: t =>
    if c = '<' ∧ t.head? = some '`' then
      match findTemplateClose t.tail with
      | some (name, rest) => name :: findTemplatesGo fuel rest
      | none => findTemplatesGo fuel t
    else findTemplatesGo fuel t

/-- Occurrences found by the template regex scan of `substitute_variables`
(`re.findall` over the whole text), left to right and non-overlapping. -/
def findTemplates (s : Str) : List Str :=
  findTemplatesGo s.length s

/-! ## Value parsing (`longi.py` lines 286-313)

The interpreter's global `variables` dict is passed explicitly. -/

/-- Embedding of `substitute_variables` (`longi.py` line 286): find every
template occurrence, then for each found name replace all occurrences of the
template with the variable's value (or an UNDEFINED marker), sequentially. -/
def substitute_variables (vars : List (Str × Str)) (text : Str) : Str :=
  (findTemplates text).foldl
    (fun t var =>
      let value := (lookupA vars var).getD
        (strE "<UNDEFINED:" ++ var ++ strE ">")
      replaceAll ('<' :: '`' :: var ++ '`' :: ['>']) value t)
    text

/-- Embedding of `parse_value` (`longi.py` line 294). -/
def parse_value (vars : List (Str × Str)) (value : Str) : Str :=
  let value := pyStrip value
  if startsWithC value '"' ∧ endsWithC value '"' then
    pyStripChars ['"'] value
  else
    (lookupA vars value).getD value

/-- Embedding of `parse_token_value` (`longi.py` line 301); a `none` token
stands for Python's `None` argument. -/
def parse_token_value (vars : List (Str × Str)) (token : Option Str) : Str :=
  match token with
  | none => []
  | some token =>
    let token := pyStrip token
    if startsWithC token '"' ∧ endsWithC token '"' then
      substitute_variables vars (pyStripChars ['"'] token)
    else
      let token := substitute_variables vars token
      (lookupA vars token).getD token

/-- Embedding of `parse_path_token` (`longi.py` line 311). -/
def parse_path_token (vars : List (Str × Str)) (token : Option Str) : Str :=
  parse_token_value vars token

/-! ## Block/file store (`longi.py` lines 66-256) -/

/-- Split on maximal runs of separator characters, as
`re.split(r"[,\s]+", s)` does: a leading or trailing run of separators
contributes an empty piece. -/
def splitSepRunsGo (p : Char → Bool) : Nat → Str → List Str
  | _, [] => [[]]
  | 0, _ => [[]]
  | fuel + 1, c :: t =>
    if p c then [] :: splitSepRunsGo p fuel (t.dropWhile p)
    else match splitSepRunsGo p fuel t with
      | [] => [[c]]
      | piece :: more => (c :: piece) :: more

/-- Split on maximal runs of separator characters (fuel wrapper: every step
consumes at least one character, so the string length is enough fuel). -/
def splitSepRuns (p : Char → Bool) (s : Str) : List Str :=
  splitSepRunsGo p s.length s

/-- Split at the first occurrence of `sep` (`token.split(sep, 1)`), given
that `sep` occurs. -/
def splitOnce (sep : Char) (s : Str) : Str × Str :=
  (s.takeWhile (· ≠ sep), (s.dropWhile (· ≠ sep)).tail)

/-- A version record: a snapshot of a file's prior blocklist, size and
timestamp (`fs_write_file`, `longi.py` lines 190-194). -/
structure Version where
  blocks : List Nat
  size : Nat
  ts : Nat
deriving DecidableEq

/-- A file entry of the store (`fs_create_file`, `longi.py` lines 171-181). -/
structure FileEntry where
  blocks : List Nat
  size : Nat
  role : Str
  ui : Str
  run : Str
  backup : Str
  versions : List Version
  created : Nat
  modified : Nat
deriving DecidableEq

/-- The store state (`fs_default_state`, `longi.py` lines 69-75). -/
structure FSState where
  block_size : Nat
  next_block_id : Nat
  blocks : List (Nat × Str)
  files : List (Str × FileEntry)
deriving DecidableEq

/-- Embedding of `fs_default_state` (`longi.py` line 69). -/
def fs_default_state : FSState :=
  { block_size := 4096, next_block_id := 1, blocks := [], files := [] }

/-- Embedding of `fs_parse_meta` (`longi.py` line 114). -/
def fs_parse_meta (meta_text : Str) : List (Str × Str) :=
  if meta_text = [] then []
  else
    let text := pyStrip meta_text
    let text :=
      if startsWithC text '"' ∧ endsWithC text '"' then (text.drop 1).dropLast
      else text
    (splitSepRuns (fun c => c = ',' || pyIsSpace c) (pyStrip text)).foldl
      (fun meta token =>
        if token = [] ∨ ¬ containsSub token ['='] then meta
        else
          let kv := splitOnce '=' token
          let key := strLower (pyStrip kv.1)
          let val := pyStrip kv.2
          if key = strE "role" ∨ key = strE "ui" ∨ key = strE "run" ∨
              key = strE "backup" then
            updateA meta key val
          else meta)
      []

/-- Fixpoint loop of `fs_normalize_path`: `while "//" in path: path =
path.replace("//", "/")`.  Each iteration with an occurrence strictly
shortens the string, so fuel equal to the initial length reaches the same
fixpoint the Python loop does. -/
def collapseSlashes : Nat → Str → Str
  | 0, s => s
  | fuel + 1, s =>
    if containsSub s (strE "//") then
      collapseSlashes fuel (replaceAll (strE "//") (strE "/") s)
    else s

/-- Embedding of `fs_normalize_path` (`longi.py` line 104); the `path or ""`
guard is subsumed by passing the string itself. -/
def fs_normalize_path (path : Str) : Str :=
  let path := pyStrip path
  if path = [] then strE "/"
  else
    let path := if startsWithC path '/' then path else '/' :: path
    collapseSlashes path.length path

/-- Embedding of `fs_alloc_block` (`longi.py` line 131): mint the next id,
register an empty block, return the id.  (Python returns `str(block_id)`;
ids are kept numeric here, see the header note.) -/
def fs_alloc_block (st : FSState) : Nat × FSState :=
  let block_id := st.next_block_id
  (block_id,
   { st with
      next_block_id := block_id + 1
      blocks := updateA st.blocks block_id [] })

/-- Embedding of `fs_write_block` (`longi.py` line 138): refuse ids that were
never allocated, else store the content truncated to `block_size`.  The
error print of the refusal branch is not needed by any claim. -/
def fs_write_block (st : FSState) (block_id : Nat) (content : Str) :
    Bool × FSState :=
  match lookupA st.blocks block_id with
  | none => (false, st)
  | some _ =>
    (true,
     { st with blocks := updateA st.blocks block_id (content.take st.block_size) })

/-- Embedding of `fs_read_block` (`longi.py` line 148). -/
def fs_read_block (st : FSState) (block_id : Nat) : Str :=
  (lookupA st.blocks block_id).getD []

/-- Embedding of `fs_get_file` (`longi.py` line 156). -/
def fs_get_file (st : FSState) (path : Str) : Option FileEntry :=
  lookupA st.files path

/-- Embedding of `fs_create_file` (`longi.py` line 160): defaults
`role/ui/run/backup`, overridden by `meta`, with empty blocklist, size 0 and
empty version history. -/
def fs_create_file (st : FSState) (path : Str) (meta : List (Str × Str))
    (now : Nat) : FSState :=
  let entry : FileEntry :=
    { blocks := []
      size := 0
      role := (lookupA meta (strE "role")).getD (strE "doc")
      ui := (lookupA meta (strE "ui")).getD (strE "none")
      run := (lookupA meta (strE "run")).getD (strE "fg")
      backup := (lookupA meta (strE "backup")).getD (strE "versioned")
      versions := []
      created := now
      modified := now }
  { st with files := updateA st.files path entry }

/-- The chunk list produced by `for i in range(0, len(content), block_size)`
with slices `content[i:i+block_size]`; empty content yields no chunks. -/
def fs_chunksGo (bs : Nat) : Nat → Str → List Str
  | _, [] => []
  | 0, _ => []
  | fuel + 1, content =>
    if bs = 0 then []
    else content.take bs :: fs_chunksGo bs fuel (content.drop bs)

/-- Chunking entry point (fuel wrapper: every chunk consumes at least one
character when `bs` is positive, so the content length is enough fuel; the
Python `range` step is the positive `block_size`). -/
def fs_chunks (bs : Nat) (content : Str) : List Str :=
  fs_chunksGo bs content.length content

/-- The allocation loop body of `fs_write_file` (`longi.py` lines 198-203):
for each chunk, allocate a fresh block, write the chunk into it, and collect
the id. -/
def fs_write_chunks (st : FSState) : List Str → FSState × List Nat
  | [] => (st, [])
  | chunk :: rest =>
    let a := fs_alloc_block st
    let w := fs_write_block a.2 a.1 chunk
    let r := fs_write_chunks w.2 rest
    (r.1, a.1 :: r.2)

/-- Embedding of `fs_write_file` (`longi.py` line 183): create the entry if
missing, snapshot a non-empty previous blocklist into `versions`, then chunk
the new content into freshly allocated blocks and install the new blocklist,
size and modification time. -/
def fs_write_file (st : FSState) (path : Str) (content : Str) (now : Nat) :
    FSState :=
  let st :=
    if (fs_get_file st path).isNone then fs_create_file st path [] now else st
  match fs_get_file st path with
  | none => st    -- unreachable: the entry was just created
  | some e =>
    let e :=
      if e.blocks ≠ [] then
        { e with versions := e.versions ++ [⟨e.blocks, e.size, now⟩] }
      else e
    let r := fs_write_chunks st (fs_chunks st.block_size content)
    { r.1 with
        files := updateA r.1.files path
          { e with blocks := r.2, size := content.length, modified := now } }

/-- Embedding of `fs_read_file` (`longi.py` line 208): concatenate the
current blocks; a missing file prints an error and reads as empty. -/
def fs_read_file (st : FSState) (path : Str) : Str :=
  match fs_get_file st path with
  | none => []
  | some e => (e.blocks.map (fs_read_block st)).flatten

/-- Embedding of the `FS[Create]` branch of `handle_fs_command`
(`longi.py` lines 704-715), after the regex has produced the raw path token
and the optional metadata operand.  Returns the store, the variables dict
and the printed diagnostics. -/
def handle_fs_create (st : FSState) (vars : List (Str × Str))
    (out : List Str) (path_token : Str) (meta_token : Option Str)
    (now : Nat) : FSState × List (Str × Str) × List Str :=
  let file_path := fs_normalize_path (parse_path_token vars (some path_token))
  let meta_raw :=
    match meta_token with
    | some t => parse_token_value vars (some t)
    | none => []
  let meta := fs_parse_meta meta_raw
  if (fs_get_file st file_path).isSome then
    (st, vars,
     out ++ [strE "[ERROR] File " ++ file_path ++ strE " already exists."])
  else
    (fs_create_file st file_path meta now,
     updateA vars (strE "LASTCREATEPATH") file_path,
     out)

/-! ## Association-list (dict) lemmas -/

theorem lookupA_updateA_self {κ β : Type} [DecidableEq κ]
    (m : List (κ × β)) (k : κ) (v : β) :
    lookupA (updateA m k v) k = some v := by
  induction m with
  | nil => simp [updateA, lookupA]
  | cons hd t ih =>
    obtain ⟨k', v'⟩ := hd
    by_cases hk : k' = k <;> simp [updateA, lookupA, hk, ih]

theorem lookupA_updateA_ne {κ β : Type} [DecidableEq κ]
    (m : List (κ × β)) (k k' : κ) (v : β) (h : k' ≠ k) :
    lookupA (updateA m k v) k' = lookupA m k' := by
  induction m with
  | nil =>
    simp only [updateA, lookupA]
    rw [if_neg (fun he => h he.symm)]
  | cons hd t ih =>
    obtain ⟨k₀, v₀⟩ := hd
    simp only [updateA]
    by_cases hk : k₀ = k
    · subst hk
      simp only [if_pos rfl, lookupA]
      rw [if_neg (fun he => h he.symm), if_neg (fun he => h he.symm)]
    · simp only [if_neg hk, lookupA]
      by_cases hk' : k₀ = k' <;> simp [hk', ih]

theorem lookupA_eq_none_iff {κ β : Type} [DecidableEq κ]
    (m : List (κ × β)) (k : κ) :
    lookupA m k = none ↔ k ∉ m.map Prod.fst := by
  induction m with
  | nil => simp [lookupA]
  | cons hd t ih =>
    obtain ⟨k₀, v₀⟩ := hd
    simp only [lookupA, List.map_cons, List.mem_cons]
    by_cases hk : k₀ = k
    · simp [hk]
    · rw [if_neg hk, ih]
      constructor
      · intro hm
        rintro (he | hmem)
        · exact hk he.symm
        · exact hm hmem
      · intro hh hmem
        exact hh (Or.inr hmem)

theorem updateA_of_not_mem {κ β : Type} [DecidableEq κ]
    (m : List (κ × β)) (k : κ) (v : β) (h : lookupA m k = none) :
    updateA m k v = m ++ [(k, v)] := by
  induction m with
  | nil => simp [updateA]
  | cons hd t ih =>
    obtain ⟨k₀, v₀⟩ := hd
    simp only [lookupA] at h
    by_cases hk : k₀ = k
    · simp [hk] at h
    · rw [if_neg hk] at h
      simp [updateA, if_neg hk, ih h]

theorem mem_keys_updateA {κ β : Type} [DecidableEq κ]
    (m : List (κ × β)) (k a : κ) (v : β) :
    a ∈ (updateA m k v).map Prod.fst ↔ a ∈ m.map Prod.fst ∨ a = k := by
  induction m with
  | nil => simp [updateA]
  | cons hd t ih =>
    obtain ⟨k₀, v₀⟩ := hd
    simp only [updateA]
    by_cases hk : k₀ = k
    · subst hk
      rw [if_pos rfl]
      simp only [List.map_cons, List.mem_cons]
      tauto
    · rw [if_neg hk]
      simp only [List.map_cons, List.mem_cons, ih]
      tauto

/-! ## Chunking lemmas -/

theorem fs_chunksGo_flatten (bs : Nat) (hbs : bs ≠ 0) :
    ∀ (fuel : Nat) (content : Str), content.length ≤ fuel →
      (fs_chunksGo bs fuel content).flatten = content := by
  intro fuel
  induction fuel with
  | zero =>
    intro content hle
    have : content = [] := List.eq_nil_of_length_eq_zero (Nat.le_zero.mp hle)
    subst this
    simp [fs_chunksGo]
  | succ fuel ih =>
    intro content hle
    match content with
    | [] => simp [fs_chunksGo]
    | c :: t =>
      simp only [fs_chunksGo, if_neg hbs, List.flatten_cons]
      rw [ih ((c :: t).drop bs) (by simp [List.length_drop] at *; omega)]
      exact List.take_append_drop bs (c :: t)

theorem fs_chunksGo_length (bs : Nat) (hbs : bs ≠ 0) :
    ∀ (fuel : Nat) (content : Str), content.length ≤ fuel → content ≠ [] →
      (fs_chunksGo bs fuel content).length = (content.length + bs - 1) / bs := by
  intro fuel
  induction fuel with
  | zero =>
    intro content hle hne
    exact absurd (List.eq_nil_of_length_eq_zero (Nat.le_zero.mp hle)) hne
  | succ fuel ih =>
    intro content hle hne
    match content with
    | [] => exact absurd rfl hne
    | c :: t =>
      simp only [fs_chunksGo, if_neg hbs, List.length_cons]
      have hlen : (c :: t).length = t.length + 1 := by simp
      have hpos := Nat.pos_of_ne_zero hbs
      by_cases hsmall : t.length + 1 ≤ bs
      · have hdrop : (c :: t).drop bs = [] := by
          apply List.eq_nil_of_length_eq_zero
          simp only [List.length_drop]
          omega
        rw [hdrop]
        simp only [fs_chunksGo, List.length_nil]
        have hdiv : (t.length + 1 + bs - 1) / bs = 1 := by
          have h1 : t.length + 1 + bs - 1 = t.length + bs := by omega
          rw [h1, Nat.add_div_right _ hpos, Nat.div_eq_of_lt (by omega)]
        omega
      · have hdroplen : ((c :: t).drop bs).length = t.length + 1 - bs := by
          simp only [List.length_drop]
          omega
        rw [ih ((c :: t).drop bs) (by omega)
          (by
            intro hnil
            rw [hnil] at hdroplen
            simp only [List.length_nil] at hdroplen
            omega)]
        rw [hdroplen]
        have h1 : t.length + 1 - bs + bs - 1 = (t.length + 1 - bs - 1) + bs := by
          omega
        have h2 : t.length + 1 + bs - 1 = (t.length + 1 - bs - 1) + bs + bs := by
          omega
        rw [h1, h2, Nat.add_div_right _ hpos, Nat.add_div_right _ hpos,
          Nat.add_div_right _ hpos]

theorem fs_chunksGo_le (bs : Nat) :
    ∀ (fuel : Nat) (content ch : Str), ch ∈ fs_chunksGo bs fuel content →
      ch.length ≤ bs := by
  intro fuel
  induction fuel with
  | zero =>
    intro content ch h
    match content with
    | [] => simp [fs_chunksGo] at h
    | c :: t => simp [fs_chunksGo] at h
  | succ fuel ih =>
    intro content ch h
    match content with
    | [] => simp [fs_chunksGo] at h
    | c :: t =>
      simp only [fs_chunksGo] at h
      by_cases hbs : bs = 0
      · simp [hbs] at h
      · rw [if_neg hbs] at h
        rcases List.mem_cons.mp h with h1 | h1
        · subst h1
          simp [List.length_take]
        · exact ih _ _ h1

/-! ## Allocation-loop specification -/

theorem fs_write_chunks_spec :
    ∀ (chunks : List Str) (st : FSState),
      (fs_write_chunks st chunks).1.block_size = st.block_size ∧
      (fs_write_chunks st chunks).1.files = st.files ∧
      (fs_write_chunks st chunks).1.next_block_id =
        st.next_block_id + chunks.length ∧
      (fs_write_chunks st chunks).2 =
        List.range' st.next_block_id chunks.length ∧
      (∀ id, id < st.next_block_id →
        lookupA (fs_write_chunks st chunks).1.blocks id =
          lookupA st.blocks id) ∧
      (∀ id, id ∈ ((fs_write_chunks st chunks).1.blocks).map Prod.fst →
        id ∈ st.blocks.map Prod.fst ∨
          (st.next_block_id ≤ id ∧ id < st.next_block_id + chunks.length)) ∧
      (∀ j, j < chunks.length →
        lookupA (fs_write_chunks st chunks).1.blocks (st.next_block_id + j) =
          (chunks[j]?).map (fun ch => ch.take st.block_size)) := by
  intro chunks
  induction chunks with
  | nil =>
    intro st
    refine ⟨rfl, rfl, by simp [fs_write_chunks], by simp [fs_write_chunks],
      fun id _ => rfl, fun id hid => Or.inl (by simpa [fs_write_chunks] using hid),
      fun j hj => absurd hj (by simp)⟩
  | cons chunk rest ih =>
    intro st
    set n := st.next_block_id with hn
    have hstep : fs_write_chunks st (chunk :: rest) =
        ((fs_write_chunks
            { st with
                next_block_id := n + 1
                blocks := updateA (updateA st.blocks n []) n
                  (chunk.take st.block_size) } rest).1,
         n :: (fs_write_chunks
            { st with
                next_block_id := n + 1
                blocks := updateA (updateA st.blocks n []) n
                  (chunk.take st.block_size) } rest).2) := by
      simp only [fs_write_chunks, fs_alloc_block, fs_write_block,
        lookupA_updateA_self]
    set st₂ : FSState :=
      { st with
          next_block_id := n + 1
          blocks := updateA (updateA st.blocks n []) n
            (chunk.take st.block_size) } with hst₂
    obtain ⟨ihbs, ihfiles, ihnext, ihids, ihold, ihkeys, ihnew⟩ := ih st₂
    have hbs₂ : st₂.block_size = st.block_size := rfl
    refine ⟨?_, ?_, ?_, ?_, ?_, ?_, ?_⟩
    · rw [hstep]; exact ihbs.trans hbs₂
    · rw [hstep]; exact ihfiles
    · rw [hstep]
      simp only [ihnext, hst₂, List.length_cons]
      omega
    · rw [hstep]
      simp only [ihids, hst₂, List.length_cons]
      exact (List.range'_succ n rest.length 1).symm
    · intro id hid
      rw [hstep]
      simp only
      rw [ihold id (by simp [hst₂]; omega)]
      have hne : id ≠ n := by omega
      simp only [hst₂]
      rw [lookupA_updateA_ne _ _ _ _ hne, lookupA_updateA_ne _ _ _ _ hne]
    · intro id hid
      rw [hstep] at hid
      simp only at hid
      rcases ihkeys id hid with h1 | h1
      · simp only [hst₂] at h1
        rcases (mem_keys_updateA _ _ _ _).mp h1 with h2 | h2
        · rcases (mem_keys_updateA _ _ _ _).mp h2 with h3 | h3
          · exact Or.inl h3
          · exact Or.inr (by simp [List.length_cons]; omega)
        · exact Or.inr (by simp [List.length_cons]; omega)
      · simp only [hst₂] at h1
        exact Or.inr (by simp [List.length_cons]; omega)
    · intro j hj
      rw [hstep]
      simp only
      match j with
      | 0 =>
        rw [Nat.add_zero, ihold n (by simp [hst₂])]
        simp [hst₂, lookupA_updateA_self]
      | j' + 1 =>
        have harith : n + (j' + 1) = st₂.next_block_id + j' := by
          simp only [hst₂]
          omega
        rw [harith, ihnew j'
          (by simp only [List.length_cons] at hj; omega)]
        simp [hbs₂]

/-! ## Write-file dissection -/

/-- The entry produced by `fs_create_file` with empty metadata. -/
def defaultFileEntry (now : Nat) : FileEntry :=
  { blocks := [], size := 0, role := strE "doc", ui := strE "none",
    run := strE "fg", backup := strE "versioned", versions := [],
    created := now, modified := now }

/-- The entry `fs_write_file` starts from: the existing one, or the entry
`fs_create_file` just made. -/
def writeBase (st : FSState) (path : Str) (now : Nat) : FileEntry :=
  match fs_get_file st path with
  | some e => e
  | none => defaultFileEntry now

/-- The version bump of `fs_write_file`: snapshot a non-empty previous
blocklist and size. -/
def writeSnapshot (e : FileEntry) (now : Nat) : FileEntry :=
  if e.blocks ≠ [] then
    { e with versions := e.versions ++ [⟨e.blocks, e.size, now⟩] }
  else e

theorem fs_create_file_empty_meta (st : FSState) (path : Str) (now : Nat) :
    fs_create_file st path [] now =
      { st with files := updateA st.files path (defaultFileEntry now) } := by
  simp [fs_create_file, defaultFileEntry, lookupA]

theorem fs_write_file_spec (st : FSState) (p c : Str) (now : Nat) :
    (fs_write_file st p c now).block_size = st.block_size ∧
    (fs_write_file st p c now).next_block_id =
      st.next_block_id + (fs_chunks st.block_size c).length ∧
    fs_get_file (fs_write_file st p c now) p =
      some { writeSnapshot (writeBase st p now) now with
               blocks := List.range' st.next_block_id
                 (fs_chunks st.block_size c).length
               size := c.length
               modified := now } ∧
    (∀ q, q ≠ p →
      fs_get_file (fs_write_file st p c now) q = fs_get_file st q) ∧
    (∀ id, id < st.next_block_id →
      lookupA (fs_write_file st p c now).blocks id = lookupA st.blocks id) ∧
    (∀ id, id ∈ ((fs_write_file st p c now).blocks).map Prod.fst →
      id ∈ st.blocks.map Prod.fst ∨
        (st.next_block_id ≤ id ∧
          id < st.next_block_id + (fs_chunks st.block_size c).length)) ∧
    (∀ j, j < (fs_chunks st.block_size c).length →
      lookupA (fs_write_file st p c now).blocks (st.next_block_id + j) =
        ((fs_chunks st.block_size c)[j]?).map
          (fun ch => ch.take st.block_size)) := by
  rcases hE : fs_get_file st p with _ | e
  · -- the file does not exist yet: it is created first
    have hwf : fs_write_file st p c now =
        (let st' := { st with
            files := updateA st.files p (defaultFileEntry now) }
         let r := fs_write_chunks st' (fs_chunks st.block_size c)
         { r.1 with
             files := updateA r.1.files p
               { defaultFileEntry now with
                   blocks := r.2, size := c.length, modified := now } }) := by
      simp only [fs_write_file, hE, Option.isNone_none, if_pos,
        fs_create_file_empty_meta]
      have hlook : fs_get_file
          { st with files := updateA st.files p (defaultFileEntry now) } p =
          some (defaultFileEntry now) := by
        simp [fs_get_file, lookupA_updateA_self]
      rw [hlook]
      simp [defaultFileEntry]
    obtain ⟨cbs, cfiles, cnext, cids, cold, ckeys, cnew⟩ :=
      fs_write_chunks_spec (fs_chunks st.block_size c)
        { st with files := updateA st.files p (defaultFileEntry now) }
    have hsnap : writeSnapshot (writeBase st p now) now = defaultFileEntry now := by
      simp [writeBase, hE, writeSnapshot, defaultFileEntry]
    refine ⟨?_, ?_, ?_, ?_, ?_, ?_, ?_⟩
    · rw [hwf]; exact cbs
    · rw [hwf]; exact cnext
    · rw [hwf]
      simp only [fs_get_file, lookupA_updateA_self, hsnap, cids]
    · intro q hq
      rw [hwf]
      simp only [fs_get_file]
      rw [lookupA_updateA_ne _ _ _ _ hq, cfiles,
        lookupA_updateA_ne _ _ _ _ hq]
    · intro id hid
      rw [hwf]
      exact cold id hid
    · intro id hid
      rw [hwf] at hid
      exact ckeys id hid
    · intro j hj
      rw [hwf]
      exact cnew j hj
  · -- the file already exists
    have hwf : fs_write_file st p c now =
        (let r := fs_write_chunks st (fs_chunks st.block_size c)
         { r.1 with
             files := updateA r.1.files p
               { writeSnapshot e now with
                   blocks := r.2, size := c.length, modified := now } }) := by
      unfold fs_write_file
      simp [writeSnapshot, hE]
    obtain ⟨cbs, cfiles, cnext, cids, cold, ckeys, cnew⟩ :=
      fs_write_chunks_spec (fs_chunks st.block_size c) st
    have hsnap : writeBase st p now = e := by simp [writeBase, hE]
    refine ⟨?_, ?_, ?_, ?_, ?_, ?_, ?_⟩
    · rw [hwf]; exact cbs
    · rw [hwf]; exact cnext
    · rw [hwf]
      simp only [fs_get_file, lookupA_updateA_self, hsnap, cids]
    · intro q hq
      rw [hwf]
      simp only [fs_get_file]
      rw [lookupA_updateA_ne _ _ _ _ hq, cfiles]
    · intro id hid
      rw [hwf]
      exact cold id hid
    · intro id hid
      rw [hwf] at hid
      exact ckeys id hid
    · intro j hj
      rw [hwf]
      exact cnew j hj

/-! ## Store invariant -/

/-- Sum of the stored contents' lengths over a blocklist. -/
def entryTotalLen (st : FSState) (e : FileEntry) : Nat :=
  (e.blocks.map (fun id => (fs_read_block st id).length)).sum

/-- The store invariant: the block size is the fixed 4096, every existing
block id is below `next_block_id`, and every file entry's blocklist ids are
below `next_block_id` with `size` equal to the total stored length. -/
def FSInv (st : FSState) : Prop :=
  st.block_size = 4096 ∧
  (∀ id ∈ st.blocks.map Prod.fst, id < st.next_block_id) ∧
  (∀ p e, lookupA st.files p = some e →
    (∀ id ∈ e.blocks, id < st.next_block_id) ∧ e.size = entryTotalLen st e)

theorem range'_read_sum (st' : FSState) (f : Str → Str) :
    ∀ (chunks : List Str) (a : Nat),
      (∀ j, j < chunks.length →
        lookupA st'.blocks (a + j) = (chunks[j]?).map f) →
      ((List.range' a chunks.length).map
        (fun id => (fs_read_block st' id).length)).sum =
      (chunks.map (fun ch => (f ch).length)).sum := by
  intro chunks
  induction chunks with
  | nil => intro a _; simp
  | cons ch rest ih =>
    intro a h
    simp only [List.length_cons]
    rw [List.range'_succ]
    simp only [List.map_cons, List.sum_cons]
    have h0 := h 0 (by simp)
    rw [Nat.add_zero] at h0
    simp only [List.getElem?_cons_zero, Option.map_some] at h0
    have hrd : fs_read_block st' a = f ch := by
      simp [fs_read_block, h0]
    rw [hrd]
    congr 1
    apply ih (a + 1)
    intro j hj
    have hj' := h (j + 1) (by simp only [List.length_cons]; omega)
    rw [show a + (j + 1) = a + 1 + j by omega] at hj'
    simpa using hj'

theorem FSInv_default : FSInv fs_default_state := by
  refine ⟨rfl, ?_, ?_⟩
  · intro id hid
    simp [fs_default_state] at hid
  · intro p e h
    simp [fs_default_state, lookupA] at h

theorem FSInv_write (st : FSState) (p c : Str) (now : Nat) (h : FSInv st) :
    FSInv (fs_write_file st p c now) := by
  obtain ⟨hbs, hkeys, hfiles⟩ := h
  obtain ⟨wbs, wnext, wgetp, wgetq, wold, wkeys, wnew⟩ :=
    fs_write_file_spec st p c now
  refine ⟨wbs.trans hbs, ?_, ?_⟩
  · intro id hid
    rcases wkeys id hid with h1 | h1
    · have := hkeys id h1
      rw [wnext]
      omega
    · rw [wnext]
      omega
  · intro q e' hq
    by_cases hqp : q = p
    · subst hqp
      have he' : e' =
          { writeSnapshot (writeBase st q now) now with
              blocks := List.range' st.next_block_id
                (fs_chunks st.block_size c).length
              size := c.length
              modified := now } := by
        rw [fs_get_file] at wgetp
        rw [hq] at wgetp
        exact Option.some.inj wgetp
      constructor
      · intro id hid
        rw [he'] at hid
        simp only [List.mem_range'] at hid
        obtain ⟨i, hi, rfl⟩ := hid
        rw [wnext]
        omega
      · rw [he']
        unfold entryTotalLen
        simp only
        rw [range'_read_sum _ _ _ _ wnew]
        have hne : st.block_size ≠ 0 := by rw [hbs]; omega
        have hmap : (fs_chunks st.block_size c).map
            (fun ch => (ch.take st.block_size).length) =
            (fs_chunks st.block_size c).map (fun ch => ch.length) := by
          apply List.map_congr_left
          intro ch hch
          have hle := fs_chunksGo_le st.block_size _ _ _ hch
          simp [List.length_take]
          omega
        rw [hmap]
        have hflat := fs_chunksGo_flatten st.block_size hne c.length c le_rfl
        calc c.length = ((fs_chunksGo st.block_size c.length c).flatten).length := by
              rw [hflat]
          _ = ((fs_chunks st.block_size c).map (fun ch => ch.length)).sum := by
              rw [List.length_flatten]
              rfl
    · have hst : lookupA st.files q = some e' := by
        have hwq := wgetq q hqp
        rw [fs_get_file, fs_get_file] at hwq
        rw [← hwq]
        exact hq
      obtain ⟨hids, hsize⟩ := hfiles q e' hst
      constructor
      · intro id hid
        have := hids id hid
        rw [wnext]
        omega
      · rw [hsize]
        unfold entryTotalLen
        congr 1
        apply List.map_congr_left
        intro id hid
        have hlt := hids id hid
        rw [fs_read_block, fs_read_block, wold id hlt]

/-- A sequence of `FS[Write]` operations, each a path, a content and a
timestamp, applied in order. -/
def fs_writes (st : FSState) : List (Str × Str × Nat) → FSState
  | [] => st
  | w :: rest => fs_writes (fs_write_file st w.1 w.2.1 w.2.2) rest

theorem FSInv_writes :
    ∀ (ws : List (Str × Str × Nat)) (st : FSState), FSInv st →
      FSInv (fs_writes st ws) := by
  intro ws
  induction ws with
  | nil => intro st h; exact h
  | cons w rest ih =>
    intro st h
    exact ih _ (FSInv_write st w.1 w.2.1 w.2.2 h)

theorem next_le_writes :
    ∀ (ws : List (Str × Str × Nat)) (st : FSState),
      st.next_block_id ≤ (fs_writes st ws).next_block_id := by
  intro ws
  induction ws with
  | nil => intro st; exact le_rfl
  | cons w rest ih =>
    intro st
    have h1 := (fs_write_file_spec st w.1 w.2.1 w.2.2).2.1
    have h2 := ih (fs_write_file st w.1 w.2.1 w.2.2)
    simp only [fs_writes]
    omega

/-! ## Version counting -/

/-- The number of version records a path currently carries (0 when the file
does not exist). -/
def fs_version_count (st : FSState) (p : Str) : Nat :=
  match fs_get_file st p with
  | some e => e.versions.length
  | none => 0

/-- Whether a path currently exists with a non-empty blocklist — the
condition under which `fs_write_file` snapshots a version. -/
def fs_had_nonempty (st : FSState) (p : Str) : Bool :=
  match fs_get_file st p with
  | some e => decide (e.blocks ≠ [])
  | none => false

/-- Spec-side counter: the number of writes in the trace that hit path `p`
while `p` already existed with non-empty content. -/
def countVersionWrites (p : Str) : FSState → List (Str × Str × Nat) → Nat
  | _, [] => 0
  | st, w :: rest =>
    (if w.1 = p ∧ fs_had_nonempty st p then 1 else 0) +
      countVersionWrites p (fs_write_file st w.1 w.2.1 w.2.2) rest

theorem fs_version_count_write (st : FSState) (q p c : Str) (n : Nat) :
    fs_version_count (fs_write_file st q c n) p =
      fs_version_count st p +
        (if q = p ∧ fs_had_nonempty st p then 1 else 0) := by
  obtain ⟨_, _, wgetp, wgetq, _, _, _⟩ := fs_write_file_spec st q c n
  by_cases hqp : q = p
  · subst hqp
    unfold fs_version_count
    rw [wgetp]
    unfold writeSnapshot writeBase fs_had_nonempty
    rcases hE : fs_get_file st q with _ | e
    · simp [hE, defaultFileEntry]
    · by_cases hb : e.blocks = [] <;> simp [hE, hb]
  · unfold fs_version_count
    rw [wgetq p (fun he => hqp he.symm)]
    simp [hqp]

theorem fs_version_count_writes (p : Str) :
    ∀ (ws : List (Str × Str × Nat)) (st : FSState),
      fs_version_count (fs_writes st ws) p =
        fs_version_count st p + countVersionWrites p st ws := by
  intro ws
  induction ws with
  | nil => intro st; simp [fs_writes, countVersionWrites]
  | cons w rest ih =>
    intro st
    simp only [fs_writes, countVersionWrites]
    rw [ih, fs_version_count_write]
    omega

/-! ## Claim theorems for the block/file store -/

/-- C2: after any sequence of `FS[Write]` operations starting from the
default store, (i) every file entry's `size` equals the total length of the
contents of its current blocks, (ii) `next_block_id` is strictly greater
than every existing block id, (iii) writing non-empty content of length `n`
installs as blocklist exactly the `ceil(n/4096)` freshly minted ids (none of
which existed before the write), and (iv) the blocklists installed by two
distinct writes to the same file are disjoint. -/
theorem C2_block_store_invariants (ws : List (Str × Str × Nat)) :
    (∀ p e, fs_get_file (fs_writes fs_default_state ws) p = some e →
      e.size = (e.blocks.map
        (fun id => (fs_read_block (fs_writes fs_default_state ws) id).length)).sum) ∧
    (∀ id ∈ ((fs_writes fs_default_state ws).blocks).map Prod.fst,
      id < (fs_writes fs_default_state ws).next_block_id) ∧
    (∀ p c now, c ≠ [] →
      (fs_get_file (fs_write_file (fs_writes fs_default_state ws) p c now) p).map
          FileEntry.blocks =
        some (List.range' (fs_writes fs_default_state ws).next_block_id
          ((c.length + 4095) / 4096)) ∧
      (∀ id ∈ List.range' (fs_writes fs_default_state ws).next_block_id
          ((c.length + 4095) / 4096),
        lookupA (fs_writes fs_default_state ws).blocks id = none)) ∧
    (∀ p c₁ n₁ ws₂ c₂ n₂ e₁ e₂,
      fs_get_file
        (fs_write_file (fs_writes fs_default_state ws) p c₁ n₁) p = some e₁ →
      fs_get_file
        (fs_write_file
          (fs_writes (fs_write_file (fs_writes fs_default_state ws) p c₁ n₁)
            ws₂) p c₂ n₂) p = some e₂ →
      ∀ id ∈ e₁.blocks, id ∉ e₂.blocks) := by
  have hInv : FSInv (fs_writes fs_default_state ws) :=
    FSInv_writes ws fs_default_state FSInv_default
  set W := fs_writes fs_default_state ws with hW
  obtain ⟨hbs, hkeys, hfiles⟩ := hInv
  refine ⟨?_, hkeys, ?_, ?_⟩
  · intro p e h
    rw [fs_get_file] at h
    exact (hfiles p e h).2
  · intro p c now hc
    obtain ⟨_, _, wgetp, _, _, _, _⟩ := fs_write_file_spec W p c now
    have hk : (fs_chunks W.block_size c).length = (c.length + 4095) / 4096 := by
      have h1 := fs_chunksGo_length 4096 (by omega) c.length c le_rfl hc
      have h2 : c.length + 4096 - 1 = c.length + 4095 := by omega
      rw [h2] at h1
      rw [hbs]
      exact h1
    constructor
    · rw [wgetp]
      simp [hk]
    · intro id hid
      simp only [List.mem_range'] at hid
      obtain ⟨i, hi, rfl⟩ := hid
      rw [lookupA_eq_none_iff]
      intro hmem
      have := hkeys _ hmem
      omega
  · intro p c₁ n₁ ws₂ c₂ n₂ e₁ e₂ h₁ h₂ id hid
    have hInv : FSInv W := ⟨hbs, hkeys, hfiles⟩
    -- ids of the first write's blocklist are below the next counter after it
    have hInv₁ : FSInv (fs_write_file W p c₁ n₁) :=
      FSInv_write W p c₁ n₁ hInv
    have hup : id < (fs_write_file W p c₁ n₁).next_block_id := by
      rw [fs_get_file] at h₁
      exact ((hInv₁.2.2) p e₁ h₁).1 id hid
    -- ids of the second write's blocklist start at the later next counter
    set M := fs_writes (fs_write_file W p c₁ n₁) ws₂ with hM
    obtain ⟨_, _, wgetp₂, _, _, _, _⟩ := fs_write_file_spec M p c₂ n₂
    have he₂ : e₂.blocks =
        List.range' M.next_block_id (fs_chunks M.block_size c₂).length := by
      rw [fs_get_file] at wgetp₂ h₂
      rw [h₂] at wgetp₂
      have := Option.some.inj wgetp₂
      rw [this]
    rw [he₂]
    intro hmem
    simp only [List.mem_range'] at hmem
    obtain ⟨i, hi, heq⟩ := hmem
    have hle := next_le_writes ws₂ (fs_write_file W p c₁ n₁)
    rw [← hM] at hle
    omega

/-- C8: `fs_write_file` on a file whose current blocklist is non-empty
appends a snapshot of the previous blocklist, size and timestamp to the
file's versions before installing the re-chunked content, and after any
sequence of writes from the default store a path's version count equals the
number of writes to it made while it existed with non-empty content. -/
theorem C8_version_snapshots :
    (∀ (st : FSState) (p c : Str) (now : Nat) (e : FileEntry),
      fs_get_file st p = some e → e.blocks ≠ [] →
      (fs_get_file (fs_write_file st p c now) p).map FileEntry.versions =
        some (e.versions ++ [⟨e.blocks, e.size, now⟩])) ∧
    (∀ (ws : List (Str × Str × Nat)) (p : Str),
      fs_version_count (fs_writes fs_default_state ws) p =
        countVersionWrites p fs_default_state ws) := by
  constructor
  · intro st p c now e hE hne
    obtain ⟨_, _, wgetp, _, _, _, _⟩ := fs_write_file_spec st p c now
    rw [wgetp]
    simp only [Option.map_some, Option.some.injEq]
    unfold writeSnapshot writeBase
    rw [hE]
    simp [hne]
  · intro ws p
    rw [fs_version_count_writes]
    have h0 : fs_version_count fs_default_state p = 0 := by
      simp [fs_version_count, fs_get_file, fs_default_state, lookupA]
    omega

/-- C10: `FS[Create]` with no metadata operand creates, for an absent
(normalized) path, a file entry with empty blocklist, size 0, empty version
list and the default metadata `role="doc", ui="none", run="fg",
backup="versioned"` (appended to the files table, with `LASTCREATEPATH`
recorded); for a present path it reports an error and leaves the store
unchanged. -/
theorem C10_fs_create_defaults (st : FSState) (vars : List (Str × Str))
    (out : List Str) (tok : Str) (now : Nat) :
    (fs_get_file st (fs_normalize_path (parse_path_token vars (some tok))) =
        none →
      handle_fs_create st vars out tok none now =
        ({ st with files := st.files ++
            [(fs_normalize_path (parse_path_token vars (some tok)),
              defaultFileEntry now)] },
         updateA vars (strE "LASTCREATEPATH")
           (fs_normalize_path (parse_path_token vars (some tok))),
         out)) ∧
    (∀ e,
      fs_get_file st (fs_normalize_path (parse_path_token vars (some tok))) =
          some e →
      handle_fs_create st vars out tok none now =
        (st, vars,
         out ++ [strE "[ERROR] File " ++
           fs_normalize_path (parse_path_token vars (some tok)) ++
           strE " already exists."])) := by
  constructor
  · intro hnone
    unfold handle_fs_create
    dsimp only
    rw [hnone]
    simp only [Option.isSome_none, Bool.false_eq_true, if_false]
    have hmeta : fs_parse_meta [] = [] := rfl
    rw [hmeta, fs_create_file_empty_meta,
      updateA_of_not_mem st.files _ (defaultFileEntry now) hnone]
  · intro e hsome
    unfold handle_fs_create
    dsimp only
    rw [hsome]
    simp

/-- Witness for C2 at a concrete input: writing "ab" to "/f" in the fresh
store mints exactly one fresh block, id 1. -/
theorem C2_block_store_invariants_witness :
    ((strE "ab" : Str) ≠ []) ∧
    ((fs_get_file
        (fs_write_file (fs_writes fs_default_state []) (strE "/f")
          (strE "ab") 7) (strE "/f")).map FileEntry.blocks =
      some (List.range' (fs_writes fs_default_state []).next_block_id
        (((strE "ab").length + 4095) / 4096))) :=
  ⟨by decide,
   ((C2_block_store_invariants []).2.2.1 (strE "/f") (strE "ab") 7
     (by decide)).1⟩

/-- Witness for C8 at a concrete input: rewriting "/f" (whose blocklist is
[1]) snapshots blocklist [1] and size 2 with the write's timestamp. -/
theorem C8_version_snapshots_witness :
    (fs_get_file (fs_write_file fs_default_state (strE "/f") (strE "ab") 7)
        (strE "/f") =
      some { blocks := [1], size := 2, role := strE "doc", ui := strE "none",
             run := strE "fg", backup := strE "versioned", versions := [],
             created := 7, modified := 7 }) ∧
    (([1] : List Nat) ≠ []) ∧
    ((fs_get_file
        (fs_write_file
          (fs_write_file fs_default_state (strE "/f") (strE "ab") 7)
          (strE "/f") (strE "cd") 9) (strE "/f")).map FileEntry.versions =
      some ([] ++ [{ blocks := [1], size := 2, ts := 9 }])) :=
  ⟨by decide, by decide,
   C8_version_snapshots.1
     (fs_write_file fs_default_state (strE "/f") (strE "ab") 7)
     (strE "/f") (strE "cd") 9
     { blocks := [1], size := 2, role := strE "doc", ui := strE "none",
       run := strE "fg", backup := strE "versioned", versions := [],
       created := 7, modified := 7 }
     (by decide) (by decide)⟩

/-- Witness for C10 at a concrete input: creating "x" in the fresh store
yields "/x" with the default metadata. -/
theorem C10_fs_create_defaults_witness :
    (fs_get_file fs_default_state
        (fs_normalize_path (parse_path_token [] (some (strE "x")))) =
      none) ∧
    (handle_fs_create fs_default_state [] [] (strE "x") none 3 =
      ({ fs_default_state with files := fs_default_state.files ++
          [(fs_normalize_path (parse_path_token [] (some (strE "x"))),
            defaultFileEntry 3)] },
       updateA [] (strE "LASTCREATEPATH")
         (fs_normalize_path (parse_path_token [] (some (strE "x")))),
       [])) :=
  ⟨by decide,
   (C10_fs_create_defaults fs_default_state [] [] (strE "x") 3).1
     (by decide)⟩

/-! ## The If-statement regex (`IF_OP_RE`, `longi.py` line 867)

The pattern anchors at the start, captures a lazy group up to a closing
bracket, one of the operators in the alternation order of the pattern, and a
non-empty remainder.  Backtracking over the closing-bracket choice is
modelled by trying successive brackets left to right; program lines never
contain a newline (they come from `readlines()` stripped), so the
no-newline restriction of the regex dot needs no extra handling. -/

/-- The operator alternation of the pattern, tried in its order. -/
def ifOpTryOps (s : Str) : Option (Str × Str) :=
  if (strE ">=").isPrefixOf s then some (strE ">=", s.drop 2)
  else if (strE "<=").isPrefixOf s then some (strE "<=", s.drop 2)
  else if (strE "=").isPrefixOf s then some (strE "=", s.drop 1)
  else if (strE ">").isPrefixOf s then some (strE ">", s.drop 1)
  else if (strE "<").isPrefixOf s then some (strE "<", s.drop 1)
  else none

/-- Parse the part after the closing bracket: optional whitespace, one
operator, optional whitespace, then a non-empty remainder; when the
remainder is all whitespace the greedy whitespace run backtracks one
character so the final group captures a single whitespace character. -/
def ifOpRest (s : Str) : Option (Str × Str) :=
  match ifOpTryOps (s.dropWhile pyIsSpace) with
  | none => none
  | some (op, s2) =>
    let rem := s2.dropWhile pyIsSpace
    if rem ≠ [] then some (op, rem)
    else match (s2.takeWhile pyIsSpace).getLast? with
      | some w => some (op, [w])
      | none => none

/-- Scan for the closing bracket of the lazy first group, extending the
group past brackets whose continuation does not parse. -/
def ifGroupGo : Str → Str → Option (Str × Str × Str)
  | _, [] => none
  | acc, c :: t =>
    if c = ']' then
      match ifOpRest t with
      | some (op, right) => some (acc.reverse, op, right)
      | none => ifGroupGo (c :: acc) t
    else ifGroupGo (c :: acc) t

/-- Embedding of `IF_OP_RE.match(line)`: the three capture groups, or
`none` when the pattern does not match. -/
def ifOpMatch (line : Str) : Option (Str × Str × Str) :=
  if (strE "If[").isPrefixOf line then ifGroupGo [] (line.drop 3) else none

/-- Embedding of `parse_uint_like_vm`'s digit loop (`longi.py` line 869):
accumulate decimal digits until the first non-digit. -/
def parse_uint_go : Nat → Str → Nat
  | acc, [] => acc
  | acc, c :: t =>
    if c < '0' ∨ c > '9' then acc
    else parse_uint_go (acc * 10 + (c.toNat - '0'.toNat)) t

/-- Embedding of `parse_uint_like_vm` (`longi.py` line 869): strip, then
consume leading ASCII digits. -/
def parse_uint_like_vm (value : Str) : Nat :=
  parse_uint_go 0 (pyStrip value)

/-- Embedding of `parse_if_parts` (`longi.py` line 878): split the line by
the If pattern; a quoted right side is unquoted and template-substituted, an
unquoted one is looked up for variable status. -/
def parse_if_parts (vars : List (Str × Str)) (line : Str) :
    Option (Str × Str × Str × Bool) :=
  match ifOpMatch line with
  | none => none
  | some (g1, op, g3) =>
    let left := pyStrip g1
    let right_raw := pyStrip g3
    if (startsWithC right_raw '"' ∧ endsWithC right_raw '"') ∨
        (startsWithC right_raw '\'' ∧ endsWithC right_raw '\'') then
      some (left, op,
        substitute_variables vars ((right_raw.drop 1).dropLast), false)
    else
      some (left, op, right_raw, (lookupA vars right_raw).isSome)

/-- Embedding of `handle_if` (`longi.py` line 893).  The `[ERROR]` print on
an unparsable condition is not modelled (the function still returns
`False` there); no exception can escape the pure comparison. -/
def handle_if (vars : List (Str × Str)) (line : Str) : Bool :=
  match parse_if_parts vars line with
  | none => false
  | some (left, op, right, right_is_var) =>
    let left_val := pyStrip ((lookupA vars left).getD [])
    let right_val :=
      if right_is_var then pyStrip ((lookupA vars right).getD []) else right
    if op = strE "=" then decide (left_val = right_val)
    else if op = strE "<" then
      decide (parse_uint_like_vm left_val < parse_uint_like_vm right_val)
    else if op = strE "<=" then
      decide (parse_uint_like_vm left_val ≤ parse_uint_like_vm right_val)
    else if op = strE ">" then
      decide (parse_uint_like_vm left_val > parse_uint_like_vm right_val)
    else if op = strE ">=" then
      decide (parse_uint_like_vm left_val ≥ parse_uint_like_vm right_val)
    else false

/-! ## Block skipping (`skip_if_block` / `skip_to_endif`, `longi.py`
lines 920-953) -/

/-- The scanning loop of `skip_if_block`: depth-count nested Ifs, return at
a matching `EndIf`, or at an `Else` at depth 0. -/
def skipIfGo : List Str → Nat → Nat → Nat
  | [], i, _ => i
  | l :: rest, i, depth =>
    let ls := pyStrip l
    if (ifOpMatch ls).isSome then skipIfGo rest (i + 1) (depth + 1)
    else if ls = strE "EndIf" then
      if depth = 0 then i else skipIfGo rest (i + 1) (depth - 1)
    else if ls = strE "Else" ∧ depth = 0 then i
    else skipIfGo rest (i + 1) depth

/-- Embedding of `skip_if_block` (`longi.py` line 920). -/
def skip_if_block (prog : List Str) (start_index : Nat) : Nat :=
  skipIfGo (prog.drop (start_index + 1)) (start_index + 1) 0

/-- The scanning loop of `skip_to_endif`: like `skipIfGo` but without the
`Else` return. -/
def skipEndifGo : List Str → Nat → Nat → Nat
  | [], i, _ => i
  | l :: rest, i, depth =>
    let ls := pyStrip l
    if (ifOpMatch ls).isSome then skipEndifGo rest (i + 1) (depth + 1)
    else if ls = strE "EndIf" then
      if depth = 0 then i else skipEndifGo rest (i + 1) (depth - 1)
    else skipEndifGo rest (i + 1) depth

/-- Embedding of `skip_to_endif` (`longi.py` line 940). -/
def skip_to_endif (prog : List Str) (start_index : Nat) : Nat :=
  skipEndifGo (prog.drop (start_index + 1)) (start_index + 1) 0

/-! ## Interpreter state (`longi.py` global state, lines 19-31)

Host I/O is modelled as logs: `out` records `print` calls, `hardware`
records appends to `build/hardware_output.log` (one entry per appended
line).  Statements whose effects live outside the model (host filesystem,
keyboard, clocks, terminal geometry, `Math`/`Random` evaluation, and the
store commands, which are modelled separately at function level above) stop
execution with an `unmodelled` marker rather than being approximated. -/

structure IState where
  /-- the `variables` dict (the name `variables` is reserved in Lean) -/
  vars : List (Str × Str)
  functions : List (Str × List Str)
  labels : List (Str × Nat)
  program_lines : List Str
  current_line : Nat
  out : List Str
  hardware : List Str
  current_fg : Option Str
  current_bg : Option Str
deriving DecidableEq

/-- Why a modelled run stopped without reaching the end of the program. -/
inductive Stop where
  /-- The fuel bound ran out (`Loop[FOREVER]` never terminates). -/
  | fuel
  /-- The statement's effect is outside the model. -/
  | unmodelled (line : Str)
  /-- An uncaught Python `TypeError` aborted the process. -/
  | typeError (fn : Str)
  /-- `sys.exit` aborted the process. -/
  | exitCode (n : Nat)
deriving DecidableEq

instance {ε α : Type} [DecidableEq ε] [DecidableEq α] :
    DecidableEq (Except ε α) := fun x y =>
  match x, y with
  | .ok a, .ok b =>
    match decEq a b with
    | isTrue h => isTrue (by rw [h])
    | isFalse h => isFalse (by intro hc; injection hc; contradiction)
  | .error e, .error f =>
    match decEq e f with
    | isTrue h => isTrue (by rw [h])
    | isFalse h => isFalse (by intro hc; injection hc; contradiction)
  | .ok _, .error _ => isFalse (fun hc => Except.noConfusion hc)
  | .error _, .ok _ => isFalse (fun hc => Except.noConfusion hc)

/-- Parameter list of the interpreter's `send_to_hardware`
(`longi.py` line 504): `def send_to_hardware(text):` — a single positional
parameter and no `add_newline`. -/
def send_to_hardware_params : List Str := [strE "text"]

/-- Python call semantics: a call is accepted only when every keyword
argument names a parameter of the callee; otherwise the call raises
`TypeError` before the body runs. -/
def kwargsAccepted (params kwargs : List Str) : Bool :=
  kwargs.all (fun k => params.contains k)

/-- Embedding of `send_to_hardware` (`longi.py` line 504) reached with the
single positional argument: append the line to the hardware log. -/
def send_to_hardware (st : IState) (text : Str) : IState :=
  { st with hardware := st.hardware ++ [text] }

/-- Embedding of `ansi_prefix` (`longi.py` line 372). -/
def ansi_prefix (st : IState) : Str :=
  let codes :=
    (match st.current_fg with | some f => [f] | none => []) ++
    (match st.current_bg with | some b => [b] | none => [])
  if codes = [] then []
  else '\x1b' :: '[' :: (List.intercalate [';'] codes) ++ ['m']

/-- Embedding of `ansi_reset` (`longi.py` line 383). -/
def ansi_reset : Str := '\x1b' :: '[' :: '0' :: ['m']

/-- Embedding of `display_to_shell` (`longi.py` line 518). -/
def display_to_shell (st : IState) (text : Str) : IState :=
  let pfx := ansi_prefix st
  if pfx ≠ [] then { st with out := st.out ++ [pfx ++ text ++ ansi_reset] }
  else { st with out := st.out ++ [text] }

/-! ### The display regexes (`longi.py` lines 611, 633, 663, 683)

Pattern shape: prefix, lazy tag group up to a closing parenthesis, optional
whitespace, an equals sign, optional whitespace, an opening quote (single or
double), a greedy content group, the same quote again and only whitespace to
the end. -/

/-- Resolve the greedy content group: the closing quote is the last `q` in
the string that is followed only by whitespace. -/
def quoteTailSplit (q : Char) (s : Str) : Option Str :=
  let core := ((s.reverse).dropWhile pyIsSpace).reverse
  match core.getLast? with
  | some c => if c = q then some core.dropLast else none
  | none => none

/-- Parse the part after the tag's closing parenthesis. -/
def displayRestParse (s : Str) : Option Str :=
  match s.dropWhile pyIsSpace with
  | '=' :: s2 =>
    (match s2.dropWhile pyIsSpace with
     | q :: s4 => if q = '"' ∨ q = '\'' then quoteTailSplit q s4 else none
     | [] => none)
  | _ => none

/-- Scan for the closing parenthesis of the lazy tag group, extending past
parentheses whose continuation does not parse. -/
def displayMatchGo : Str → Str → Option (Str × Str)
  | _, [] => none
  | acc, c :: t =>
    if c = ')' then
      match displayRestParse t with
      | some content => some (acc.reverse, content)
      | none => displayMatchGo (c :: acc) t
    else displayMatchGo (c :: acc) t

/-- Embedding of the `DisplayText(...)` / `DisplayTextRaw(...)` regex match:
the tag and content groups. -/
def displayMatch (raw : Bool) (line : Str) : Option (Str × Str) :=
  let pfx := if raw then strE "DisplayTextRaw(" else strE "DisplayText("
  if pfx.isPrefixOf line then displayMatchGo [] (line.drop pfx.length)
  else none

/-- Embedding of `handle_display` (`longi.py` line 661). -/
def handle_display (st : IState) (line : Str) : IState :=
  match displayMatch false line with
  | none =>
    { st with out := st.out ++
        [strE "[ERROR] Invalid DisplayText syntax (must be quoted): " ++ line] }
  | some (tag, content) =>
    let tag := strUpper (pyStrip tag)
    let content := substitute_variables st.vars (pyStrip content)
    if tag = strE "SHELL" then display_to_shell st content
    else if tag = strE "DIRECT" then send_to_hardware st content
    else
      display_to_shell
        { st with out := st.out ++
            [strE "[WARN] Unknown DisplayText tag, defaulting to SHELL"] }
        content

/-- Embedding of `handle_display_raw` (`longi.py` line 681).  The `DIRECT`
branch calls `send_to_hardware(content, add_newline=False)`
(`longi.py` line 698) while the interpreter's `send_to_hardware` accepts no
`add_newline` keyword, so Python raises an uncaught `TypeError` there. -/
def handle_display_raw (st : IState) (line : Str) : Except Stop IState :=
  match displayMatch true line with
  | none =>
    .ok { st with out := st.out ++
        [strE "[ERROR] Invalid DisplayTextRaw syntax (must be quoted): " ++ line] }
  | some (tag, content) =>
    let tag := strUpper (pyStrip tag)
    let content := substitute_variables st.vars (pyStrip content)
    if tag = strE "SHELL" then
      let pfx := ansi_prefix st
      if pfx ≠ [] then
        .ok { st with out := st.out ++ [pfx ++ content ++ ansi_reset] }
      else .ok { st with out := st.out ++ [content] }
    else if tag = strE "DIRECT" then
      if kwargsAccepted send_to_hardware_params [strE "add_newline"] then
        .ok (send_to_hardware st content)
      else .error (.typeError (strE "send_to_hardware"))
    else
      .ok { st with out := st.out ++
          [strE "[WARN] Unknown DisplayTextRaw tag, defaulting to SHELL",
           content] }

/-! ### Set (`handle_set`, `longi.py` line 529) -/

/-- Parse the part after the closing bracket of `Set[...]`: optional
whitespace, an equals sign, then the greedy remainder. -/
def setRestParse (s : Str) : Option Str :=
  match s.dropWhile pyIsSpace with
  | '=' :: s2 => some (s2.dropWhile pyIsSpace)
  | _ => none

/-- Scan for the closing bracket of the lazy `Set[...]` group. -/
def setMatchGo : Str → Str → Option (Str × Str)
  | _, [] => none
  | acc, c :: t =>
    if c = ']' then
      match setRestParse t with
      | some rhs => some (acc.reverse, rhs)
      | none => setMatchGo (c :: acc) t
    else setMatchGo (c :: acc) t

/-- Embedding of the `Set\[(.*?)\]\s*=\s*(.*)` match. -/
def setMatch (line : Str) : Option (Str × Str) :=
  if (strE "Set[").isPrefixOf line then setMatchGo [] (line.drop 4)
  else none

/-- Embedding of `handle_set` (`longi.py` line 529).  The `Math`, `Random`,
`ReadFile` and store-command right-hand sides reach host state or evaluators
outside this model and stop with `unmodelled` (the store itself is modelled
separately above); the remaining branches are the source's. -/
def handle_set (st : IState) (line : Str) : Except Stop IState :=
  match setMatch line with
  | none =>
    .ok { st with out := st.out ++ [strE "[ERROR] Invalid Set syntax: " ++ line] }
  | some (var_name, rhs) =>
    let raw_value := pyStrip rhs
    if (strE "Math(").isPrefixOf raw_value ∧ endsWithC raw_value ')' then
      .error (.unmodelled line)
    else if (strE "Random[").isPrefixOf raw_value ∧ endsWithC raw_value ']' then
      .error (.unmodelled line)
    else if (strE "ReadFile[").isPrefixOf raw_value ∧ endsWithC raw_value ']' then
      .error (.unmodelled line)
    else if (strE "FS[").isPrefixOf raw_value then .error (.unmodelled line)
    else if (strE "Block[").isPrefixOf raw_value then .error (.unmodelled line)
    else
      match displayMatch false raw_value with
      | some (tag, content) =>
        let tag := strUpper (pyStrip tag)
        let value := substitute_variables st.vars (pyStrip content)
        if tag = strE "DIRECT" then
          .ok { send_to_hardware st value with
                  vars := updateA st.vars var_name value }
        else if tag = strE "SHELL" then
          .ok { display_to_shell st value with
                  vars := updateA st.vars var_name value }
        else
          .ok { display_to_shell
                  { st with out := st.out ++
                      [strE "[WARN] Unknown DisplayText tag, defaulting to SHELL"] }
                  value with
                  vars := updateA st.vars var_name value }
      | none =>
        match displayMatch true raw_value with
        | some (tag, content) =>
          let tag := strUpper (pyStrip tag)
          let value := substitute_variables st.vars (pyStrip content)
          if tag = strE "DIRECT" then
            -- longi.py line 639: send_to_hardware(value, add_newline=False),
            -- the same TypeError as in handle_display_raw
            if kwargsAccepted send_to_hardware_params [strE "add_newline"] then
              .ok { send_to_hardware st value with
                      vars := updateA st.vars var_name value }
            else .error (.typeError (strE "send_to_hardware"))
          else if tag = strE "SHELL" then
            let pfx := ansi_prefix st
            .ok { st with
                    out := st.out ++
                      [if pfx ≠ [] then pfx ++ value ++ ansi_reset else value]
                    vars := updateA st.vars var_name value }
          else
            .ok { st with
                    out := st.out ++
                      [strE "[WARN] Unknown DisplayTextRaw tag, defaulting to SHELL",
                       value]
                    vars := updateA st.vars var_name value }
        | none =>
          if startsWithC raw_value '"' ∧ endsWithC raw_value '"' then
            .ok { st with
                    vars := updateA st.vars var_name
                      (substitute_variables st.vars
                        (pyStripChars ['"'] raw_value)) }
          else
            .ok { st with
                    vars := updateA st.vars var_name
                      (parse_value st.vars raw_value) }

/-! ### Colors, goto, loop collection -/

/-- The foreground color table of `set_color` (`longi.py` line 388). -/
def color_map : List (Str × Str) :=
  [(strE "BLACK", strE "30"), (strE "RED", strE "31"),
   (strE "GREEN", strE "32"), (strE "YELLOW", strE "33"),
   (strE "BLUE", strE "34"), (strE "MAGENTA", strE "35"),
   (strE "CYAN", strE "36"), (strE "WHITE", strE "37"),
   (strE "BRIGHTBLACK", strE "90"), (strE "BRIGHTRED", strE "91"),
   (strE "BRIGHTGREEN", strE "92"), (strE "BRIGHTYELLOW", strE "93"),
   (strE "BRIGHTBLUE", strE "94"), (strE "BRIGHTMAGENTA", strE "95"),
   (strE "BRIGHTCYAN", strE "96"), (strE "BRIGHTWHITE", strE "97")]

/-- Decimal value of an all-digit string (`int(v)` for the color codes). -/
def decToNat (s : Str) : Nat :=
  s.foldl (fun acc c => acc * 10 + (c.toNat - '0'.toNat)) 0

/-- Decimal representation of a `Nat` (digits helper, fuel is the number
itself so the division chain always finishes). -/
def natDigits : Nat → Nat → Str
  | 0, _ => []
  | fuel + 1, n =>
    if n = 0 then []
    else natDigits fuel (n / 10) ++ [Char.ofNat ('0'.toNat + n % 10)]

/-- Decimal representation of a `Nat` (`str(n)`). -/
def natToStr (n : Nat) : Str :=
  if n = 0 then ['0'] else natDigits (n + 1) n

/-- Embedding of `set_color` (`longi.py` line 386): the background table is
derived from the foreground one by adding 10 to each code. -/
def set_color (st : IState) (tag value : Str) : IState :=
  let key := strUpper (pyStrip value)
  if tag = strE "FG" then
    match lookupA color_map key with
    | some code => { st with current_fg := some code }
    | none => { st with out := st.out ++ [strE "[WARN] Unknown FG color"] }
  else if tag = strE "BG" then
    match lookupA color_map key with
    | some code => { st with current_bg := some (natToStr (decToNat code + 10)) }
    | none => { st with out := st.out ++ [strE "[WARN] Unknown BG color"] }
  else st

/-- The `SetColor[FG|BG] = value` parse of `execute_line`
(`longi.py` line 1107); the regex is case-insensitive in the tag. -/
def setColorParse (line : Str) : Option (Str × Str) :=
  match line.drop 9 with
  | a :: b :: ']' :: r =>
    let tag := strUpper [a, b]
    if tag = strE "FG" ∨ tag = strE "BG" then
      match setRestParse r with
      | some val => some (tag, val)
      | none => none
    else none
  | _ => none

/-- The text of the first bracket argument after a prefix:
`line.split(pfx, 1)[1].split("]", 1)[0]` for a line starting with `pfx`. -/
def bracketArg (pfx : Str) (line : Str) : Str :=
  (line.drop pfx.length).takeWhile (· ≠ ']')

/-- Embedding of `handle_goto` (`longi.py` line 968): jump to a recorded
label, or print the error and `sys.exit(1)`. -/
def handle_goto (st : IState) (label : Str) : Except Stop IState :=
  match lookupA st.labels label with
  | some ix => .ok { st with current_line := ix }
  | none => .error (.exitCode 1)

/-- The body collection of `handle_loop` (`longi.py` lines 958-961): lines
after the loop header up to (excluding) the first line whose strip starts
with `EndLoop`. -/
def collectLoopBody : List Str → List Str
  | [] => []
  | l :: rest =>
    if (strE "EndLoop").isPrefixOf (pyStrip l) then []
    else l :: collectLoopBody rest

/-- Scanner of `strip_inline_comment` (`longi.py` line 258): track single
and double quote state; outside quotes, `//` or `#` ends the line. -/
def sicGo (inS inD : Bool) : Str → Str
  | [] => []
  | c :: t =>
    if c = '"' ∧ inS = false then c :: sicGo inS (!inD) t
    else if c = '\'' ∧ inD = false then c :: sicGo (!inS) inD t
    else if inS = false ∧ inD = false ∧ c = '/' ∧ t.head? = some '/' then []
    else if inS = false ∧ inD = false ∧ c = '#' then []
    else c :: sicGo inS inD t

/-- Embedding of `strip_inline_comment` (`longi.py` line 258): both the
comment case (`line[:i].rstrip()`) and the no-comment case
(`line.rstrip()`) right-strip the kept prefix. -/
def strip_inline_comment (line : Str) : Str :=
  pyRstrip (sicGo false false line)

/-! ## The interpreter core

`execute_line`, the `run_program` loop, `handle_call` and `handle_loop`
(`longi.py` lines 956-994 and 999-1279) are mutually recursive; they are
embedded as one function, structurally recursive on a fuel bound so that it
evaluates inside the kernel, over a sum of the pending call shapes. -/

/-- The pending call shapes of the interpreter's mutual recursion. -/
inductive Cmd where
  /-- `execute_line(line)` in state `st`. -/
  | execLine (st : IState) (line : Str)
  /-- the `while current_line < len(program_lines)` loop. -/
  | runLines (st : IState)
  /-- `handle_call(func_name)`. -/
  | call (st : IState) (func_name : Str)
  /-- `for line in loop_lines: execute_line(line)`. -/
  | execList (st : IState) (ls : List Str)
  /-- the `while True` of `handle_loop`. -/
  | loopRep (st : IState) (body : List Str)

/-- One interpreter under a fuel bound.  Branch order and branch guards
follow `execute_line` (`longi.py` line 999) exactly; statements whose
effects live outside the model stop with `unmodelled` (see `IState`). -/
def interpGo : Nat → Cmd → Except Stop IState
  | 0, _ => .error .fuel
  | fuel + 1, cmd =>
    match cmd with
    | .runLines st =>
      if st.current_line < st.program_lines.length then
        match interpGo fuel
            (.execLine st (pyStrip (st.program_lines.getD st.current_line []))) with
        | .ok st' =>
          interpGo fuel (.runLines { st' with current_line := st'.current_line + 1 })
        | .error e => .error e
      else .ok st
    | .call st func_name =>
      match lookupA st.functions func_name with
      | none =>
        .ok { st with out := st.out ++
            [strE "[ERROR] Function " ++ func_name ++ strE " not found."] }
      | some body =>
        -- the body runs in its own program_lines/current_line context and the
        -- caller's context is restored afterwards (the try/finally of
        -- handle_call, longi.py lines 983-994)
        match interpGo fuel
            (.runLines { st with program_lines := body, current_line := 0 }) with
        | .ok s =>
          .ok { s with
                  program_lines := st.program_lines
                  current_line := st.current_line }
        | .error e => .error e
    | .execList st ls =>
      match ls with
      | [] => .ok st
      | l :: rest =>
        match interpGo fuel (.execLine st l) with
        | .ok st' => interpGo fuel (.execList st' rest)
        | .error e => .error e
    | .loopRep st body =>
      match interpGo fuel (.execList st body) with
      | .ok st' => interpGo fuel (.loopRep st' body)
      | .error e => .error e
    | .execLine st line =>
      let line := strip_inline_comment (pyStrip line)
      if line = [] ∨ (strE "//").isPrefixOf line then .ok st
      else if [strE "[16BIT]", strE "startprogram", strE "endprogram",
          strE "startsection", strE "endsection"].contains
            (line.filter (fun c => c ≠ ' ')) then .ok st
      else if (strE "Set[").isPrefixOf line then handle_set st line
      else if (strE "DisplayText(DIRECT)=").isPrefixOf line ∨
          (strE "DisplayText(SHELL)=").isPrefixOf line then
        .ok (handle_display st line)
      else if (strE "DisplayTextRaw(DIRECT)=").isPrefixOf line ∨
          (strE "DisplayTextRaw(SHELL)=").isPrefixOf line then
        handle_display_raw st line
      else if (strE "FS[").isPrefixOf line then .error (.unmodelled line)
      else if (strE "Block[").isPrefixOf line then .error (.unmodelled line)
      else if (strE "WriteFile").isPrefixOf line then .error (.unmodelled line)
      else if (strE "AppendFile").isPrefixOf line then .error (.unmodelled line)
      else if (strE "TrackInput[KEYBOARD]").isPrefixOf line then
        .error (.unmodelled line)
      else if (strE "Every[MS]").isPrefixOf line then .error (.unmodelled line)
      else if (ifOpMatch line).isSome then
        if handle_if st.vars line then .ok st
        else
          -- longi.py lines 1080-1085: the program counter moves to the
          -- matching Else/EndIf; both paths of the landing check return,
          -- and run_program then increments past the landing line
          .ok { st with current_line := skip_if_block st.program_lines st.current_line }
      else if line = strE "Else" then
        .ok { st with current_line := skip_to_endif st.program_lines st.current_line }
      else if line = strE "EndIf" then .ok st
      else if (strE "Loop[FOREVER]").isPrefixOf line then
        interpGo fuel (.loopRep st
          (collectLoopBody (st.program_lines.drop (st.current_line + 1))))
      else if (strE "Goto[").isPrefixOf line then
        handle_goto st (bracketArg (strE "Goto[") line)
      else if (strE "CallFunction[").isPrefixOf line then
        interpGo fuel (.call st (bracketArg (strE "CallFunction[") line))
      else if (strE "SetColor[").isPrefixOf line then
        match setColorParse line with
        | none =>
          .ok { st with out := st.out ++
              [strE "[ERROR] Invalid SetColor syntax: " ++ line] }
        | some (tag, val) =>
          .ok (set_color st tag (parse_token_value st.vars (some val)))
      else if line = strE "ResetColor" then
        .ok { st with current_fg := none, current_bg := none }
      else if (strE "DrawBox[").isPrefixOf line then .error (.unmodelled line)
      else if line = strE "ClearScreen" then
        .ok { st with out := st.out ++ ['\x1b' :: '[' :: '2' :: ['J'] ++
            '\x1b' :: '[' :: ['H']] }
      else if line = strE "FillLine" then .error (.unmodelled line)
      else if (strE "FillLines[").isPrefixOf line ∧ endsWithC line ']' then
        .error (.unmodelled line)
      else if (strE "SetCursor[").isPrefixOf line then .error (.unmodelled line)
      else if (strE "TickTimer[").isPrefixOf line then .error (.unmodelled line)
      else if (strE "Time[").isPrefixOf line then .error (.unmodelled line)
      else if (strE "StartFunction[").isPrefixOf line ∨ line = strE "EndFunction" then
        .ok st
      else if (strE "Label[").isPrefixOf line ∧ containsSub line (strE "]") then
        .ok st
      else if (strE "Label:").isPrefixOf line then
        .ok { st with out := st.out ++
            [strE "[WARN] Deprecated label syntax used; prefer Label[NAME]"] }
      else
        .ok { st with out := st.out ++ [strE "[ERROR] Unknown command: " ++ line] }

/-- Embedding of `execute_line` (`longi.py` line 999) under a fuel bound. -/
def execute_line (fuel : Nat) (st : IState) (line : Str) : Except Stop IState :=
  interpGo fuel (.execLine st line)

/-- Embedding of `handle_call` (`longi.py` line 976) under a fuel bound. -/
def handle_call (fuel : Nat) (st : IState) (func_name : Str) :
    Except Stop IState :=
  interpGo fuel (.call st func_name)

/-- Embedding of `run_program` (`longi.py` line 1273) under a fuel bound. -/
def run_program (fuel : Nat) (st : IState) : Except Stop IState :=
  interpGo fuel (.runLines { st with current_line := 0 })

/-- A fresh interpreter state over a loaded program. -/
def init_state (prog : List Str) (funcs : List (Str × List Str))
    (labels : List (Str × Nat)) : IState :=
  { vars := [], functions := funcs, labels := labels, program_lines := prog,
    current_line := 0, out := [], hardware := [], current_fg := none,
    current_bg := none }

/-- C1: evaluation of the code at the failing input.  The interpreter's
`send_to_hardware` (`longi.py` line 504) accepts no `add_newline` keyword,
yet `handle_display_raw` (line 698) passes one, so executing
`DisplayTextRaw(DIRECT)="hi"` raises an uncaught `TypeError` and the run
aborts instead of printing an `[ERROR]` diagnostic and continuing; the
plain `DisplayText(DIRECT)` statement by contrast completes and appends to
the hardware log. -/
theorem C1_display_raw_direct_aborts :
    (kwargsAccepted send_to_hardware_params [strE "add_newline"] = false) ∧
    (run_program 9 (init_state [strE "DisplayTextRaw(DIRECT)=\"hi\""] [] []) =
      Except.error (Stop.typeError (strE "send_to_hardware"))) ∧
    ((run_program 9 (init_state [strE "DisplayText(DIRECT)=\"hi\""] [] [])).map
        (fun s => s.hardware) = Except.ok [strE "hi"]) :=
  ⟨by decide, by decide, by decide⟩

/-- C5: whenever `handle_call` returns normally, the caller's program
counter and program lines are exactly as before the call — the function
body ran in its own context, so If/Else/EndIf skips inside the body cannot
perturb the caller's `pc`. -/
theorem C5_call_own_pc_context (fuel : Nat) (st : IState) (name : Str)
    (st' : IState) (h : handle_call fuel st name = .ok st') :
    st'.current_line = st.current_line ∧
      st'.program_lines = st.program_lines := by
  match fuel with
  | 0 => simp [handle_call, interpGo] at h
  | fuel + 1 =>
    rw [handle_call, interpGo] at h
    split at h
    · simp only [Except.ok.injEq] at h
      subst h
      exact ⟨rfl, rfl⟩
    · split at h
      · simp only [Except.ok.injEq] at h
        subst h
        exact ⟨rfl, rfl⟩
      · exact absurd h (by simp)

/-- Concrete scenario for the C5 witness: calling `F`, whose body contains
an If/EndIf skip, from a one-line main program. -/
def c5st : IState :=
  init_state [strE "CallFunction[F]"]
    [(strE "F",
      [strE "If[X] = \"1\"", strE "DisplayText(SHELL)=\"a\"", strE "EndIf"])]
    []

/-- Witness for C5 at a concrete input: the call returns with the state
unchanged, in particular with the caller's program counter. -/
theorem C5_call_own_pc_context_witness :
    (handle_call 9 c5st (strE "F") = Except.ok c5st) ∧
    (c5st.current_line = c5st.current_line ∧
      c5st.program_lines = c5st.program_lines) :=
  ⟨by decide, C5_call_own_pc_context 9 c5st (strE "F") c5st (by decide)⟩

/-! ## C6: `If` comparison semantics -/

/-- Value of the leading ASCII-digit prefix of a string (first non-digit
terminates, empty prefix yields 0) — the spec-side digit parse. -/
def digitsVal (s : Str) : Nat :=
  (s.takeWhile (fun c => decide ('0' ≤ c ∧ c ≤ '9'))).foldl
    (fun acc c => acc * 10 + (c.toNat - '0'.toNat)) 0

theorem parse_uint_go_eq :
    ∀ (s : Str) (acc : Nat),
      parse_uint_go acc s =
        (s.takeWhile (fun c => decide ('0' ≤ c ∧ c ≤ '9'))).foldl
          (fun acc c => acc * 10 + (c.toNat - '0'.toNat)) acc := by
  intro s
  induction s with
  | nil => intro acc; simp [parse_uint_go]
  | cons c t ih =>
    intro acc
    by_cases hd : c < '0' ∨ c > '9'
    · have hp : ¬ ('0' ≤ c ∧ c ≤ '9') := by
        intro hcd
        rcases hd with hd | hd
        · exact absurd hcd.1 (not_le.mpr hd)
        · exact absurd hcd.2 (not_le.mpr hd)
      simp [parse_uint_go, if_pos hd, List.takeWhile_cons, hp]
    · have hp : decide ('0' ≤ c ∧ c ≤ '9') = true := by
        simp only [decide_eq_true_eq]
        push_neg at hd
        exact ⟨not_lt.mp (fun hlt => (not_lt.mpr hd.1) hlt), hd.2⟩
      rw [show parse_uint_go acc (c :: t) =
            parse_uint_go (acc * 10 + (c.toNat - '0'.toNat)) t from by
          rw [parse_uint_go, if_neg hd]]
      simp only [List.takeWhile_cons, hp, if_true, List.foldl_cons]
      exact ih _

/-- The interpreter's digit parse equals the spec-side one applied to the
whitespace-stripped operand. -/
theorem parse_uint_like_vm_eq (s : Str) :
    parse_uint_like_vm s = digitsVal (pyStrip s) := by
  simp [parse_uint_like_vm, digitsVal, parse_uint_go_eq]

/-- Variable table of the C6 counterexample. -/
def c6vars : List (Str × Str) := [(strE "X", strE " a")]

/-- C6 counterexample: with `X = " a"`, the statement `If[X]=" a"` has a
quoted RHS equal to the variable's raw value, so comparing "as raw
strings" would yield true; the interpreter strips the left value before
comparing and evaluates the condition to false. -/
theorem C6_raw_string_counterexample :
    (lookupA c6vars (strE "X") = some (strE " a")) ∧
    (parse_if_parts c6vars (strE "If[X]=\" a\"") =
      some (strE "X", strE "=", strE " a", false)) ∧
    (handle_if c6vars (strE "If[X]=\" a\"") = false) :=
  ⟨by decide, by decide, by decide⟩

/-- Comparison semantics in the amended claim's words: for `=`, the left
variable's value (and a variable RHS's value) is stripped of surrounding
whitespace and the sides are compared as strings, a quoted RHS being the
template-substituted literal; for the ordering operators each side is
stripped and the value of its leading ASCII digit prefix is compared. -/
def if_compare_spec (vars : List (Str × Str)) (left op right : Str)
    (right_is_var : Bool) : Bool :=
  let lv := pyStrip ((lookupA vars left).getD [])
  let rv :=
    if right_is_var then pyStrip ((lookupA vars right).getD []) else right
  if op = strE "=" then decide (lv = rv)
  else if op = strE "<" then
    decide (digitsVal (pyStrip lv) < digitsVal (pyStrip rv))
  else if op = strE "<=" then
    decide (digitsVal (pyStrip lv) ≤ digitsVal (pyStrip rv))
  else if op = strE ">" then
    decide (digitsVal (pyStrip lv) > digitsVal (pyStrip rv))
  else if op = strE ">=" then
    decide (digitsVal (pyStrip lv) ≥ digitsVal (pyStrip rv))
  else false

/-- C6 as amended: for every `If` statement the interpreter parses, the
evaluated condition is exactly the amended comparison semantics — string
comparison of the stripped left (and variable RHS) value against the
substituted quoted literal for `=`, and leading-digit values of the
stripped sides for the ordering operators. -/
theorem C6_amended_if_semantics (vars : List (Str × Str)) (line l op r : Str)
    (riv : Bool) (h : parse_if_parts vars line = some (l, op, r, riv)) :
    handle_if vars line = if_compare_spec vars l op r riv := by
  unfold handle_if
  rw [h]
  unfold if_compare_spec
  simp only [parse_uint_like_vm_eq]

/-- Witness for the amended C6 at a concrete input: `If[X] > 9` with
`X = "12"`. -/
theorem C6_amended_if_semantics_witness :
    (parse_if_parts [(strE "X", strE "12")] (strE "If[X] > 9") =
      some (strE "X", strE ">", strE "9", false)) ∧
    (handle_if [(strE "X", strE "12")] (strE "If[X] > 9") =
      if_compare_spec [(strE "X", strE "12")] (strE "X") (strE ">")
        (strE "9") false) :=
  ⟨by decide,
   C6_amended_if_semantics [(strE "X", strE "12")] (strE "If[X] > 9")
     (strE "X") (strE ">") (strE "9") false (by decide)⟩

/-! ## C7: matching of `skip_if_block` / `skip_to_endif` -/

/-- Well-formed nested If/Else/EndIf sequences: a sequence of complete
statements, each either a line that (after stripping) is no `If`
statement, no `Else` and no `EndIf`, or a full `If ... EndIf` block with
or without an `Else` branch and well-formed sub-sequences. -/
inductive BalancedIf : List Str → Prop
  | nil : BalancedIf []
  | plain (l : Str) (rest : List Str)
      (h1 : ifOpMatch (pyStrip l) = none)
      (h2 : pyStrip l ≠ strE "Else")
      (h3 : pyStrip l ≠ strE "EndIf") :
      BalancedIf rest → BalancedIf (l :: rest)
  | ifNoElse (c : Str) (body : List Str) (e : Str) (rest : List Str)
      (hc : (ifOpMatch (pyStrip c)).isSome = true)
      (he : pyStrip e = strE "EndIf") :
      BalancedIf body → BalancedIf rest →
      BalancedIf (c :: body ++ e :: rest)
  | ifElse (c : Str) (thn : List Str) (el : Str) (els : List Str) (e : Str)
      (rest : List Str)
      (hc : (ifOpMatch (pyStrip c)).isSome = true)
      (hel : pyStrip el = strE "Else")
      (he : pyStrip e = strE "EndIf") :
      BalancedIf thn → BalancedIf els → BalancedIf rest →
      BalancedIf (c :: thn ++ el :: els ++ e :: rest)

/-- Scanning a balanced block passes straight through it, at any depth:
every `EndIf`/`Else` inside it sits above the scan's depth. -/
theorem skipIfGo_balanced :
    ∀ (b : List Str), BalancedIf b →
      ∀ (rest : List Str) (i d : Nat),
        skipIfGo (b ++ rest) i d = skipIfGo rest (i + b.length) d := by
  intro b hb
  induction hb with
  | nil => intro rest i d; simp
  | plain l rest' h1 h2 h3 _ ih =>
    intro rest i d
    simp only [List.cons_append, skipIfGo, h1, Option.isSome_none,
      Bool.false_eq_true, if_false]
    rw [if_neg h3, if_neg (fun h => h2 h.1)]
    show skipIfGo (rest' ++ rest) (i + 1) d
        = skipIfGo rest (i + (l :: rest').length) d
    rw [ih rest (i + 1) d]
    have he : i + 1 + rest'.length = i + (l :: rest').length := by
      simp [List.length_cons]; omega
    rw [he]
  | ifNoElse c body e rest' hc he _ _ ihbody ihrest =>
    intro rest i d
    have hassoc : (c :: body ++ e :: rest') ++ rest
        = c :: (body ++ e :: (rest' ++ rest)) := by simp
    rw [hassoc]
    simp only [skipIfGo]
    rw [if_pos hc, ihbody (e :: (rest' ++ rest)) (i + 1) (d + 1)]
    simp only [skipIfGo]
    have h1 : ¬ ((ifOpMatch (pyStrip e)).isSome = true) := by
      rw [he]; decide
    rw [if_neg h1, if_pos he, if_neg (Nat.succ_ne_zero d),
      Nat.add_sub_cancel, ihrest rest (i + 1 + body.length + 1) d]
    have hlen : i + 1 + body.length + 1 + rest'.length
        = i + (c :: body ++ e :: rest').length := by
      simp [List.length_append, List.length_cons]; omega
    rw [hlen]
  | ifElse c thn el els e rest' hc hel he _ _ _ ihthn ihels ihrest =>
    intro rest i d
    have hassoc : (c :: thn ++ el :: els ++ e :: rest') ++ rest
        = c :: (thn ++ el :: (els ++ e :: (rest' ++ rest))) := by simp
    rw [hassoc]
    simp only [skipIfGo]
    rw [if_pos hc, ihthn (el :: (els ++ e :: (rest' ++ rest))) (i + 1) (d + 1)]
    simp only [skipIfGo]
    have h1 : ¬ ((ifOpMatch (pyStrip el)).isSome = true) := by
      rw [hel]; decide
    have h2 : pyStrip el ≠ strE "EndIf" := by rw [hel]; decide
    have h3 : ¬ (pyStrip el = strE "Else" ∧ d + 1 = 0) := by
      intro h; exact Nat.succ_ne_zero d h.2
    rw [if_neg h1, if_neg h2, if_neg h3,
      ihels (e :: (rest' ++ rest)) (i + 1 + thn.length + 1) (d + 1)]
    simp only [skipIfGo]
    have h4 : ¬ ((ifOpMatch (pyStrip e)).isSome = true) := by
      rw [he]; decide
    rw [if_neg h4, if_pos he, if_neg (Nat.succ_ne_zero d),
      Nat.add_sub_cancel,
      ihrest rest (i + 1 + thn.length + 1 + els.length + 1) d]
    have hlen : i + 1 + thn.length + 1 + els.length + 1 + rest'.length
        = i + (c :: thn ++ el :: els ++ e :: rest').length := by
      simp [List.length_append, List.length_cons]; omega
    rw [hlen]

/-- The `skip_to_endif` scan also passes straight through a balanced
block, at any depth. -/
theorem skipEndifGo_balanced :
    ∀ (b : List Str), BalancedIf b →
      ∀ (rest : List Str) (i d : Nat),
        skipEndifGo (b ++ rest) i d = skipEndifGo rest (i + b.length) d := by
  intro b hb
  induction hb with
  | nil => intro rest i d; simp
  | plain l rest' h1 h2 h3 _ ih =>
    intro rest i d
    simp only [List.cons_append, skipEndifGo, h1, Option.isSome_none,
      Bool.false_eq_true, if_false]
    rw [if_neg h3]
    show skipEndifGo (rest' ++ rest) (i + 1) d
        = skipEndifGo rest (i + (l :: rest').length) d
    rw [ih rest (i + 1) d]
    have he : i + 1 + rest'.length = i + (l :: rest').length := by
      simp [List.length_cons]; omega
    rw [he]
  | ifNoElse c body e rest' hc he _ _ ihbody ihrest =>
    intro rest i d
    have hassoc : (c :: body ++ e :: rest') ++ rest
        = c :: (body ++ e :: (rest' ++ rest)) := by simp
    rw [hassoc]
    simp only [skipEndifGo]
    rw [if_pos hc, ihbody (e :: (rest' ++ rest)) (i + 1) (d + 1)]
    simp only [skipEndifGo]
    have h1 : ¬ ((ifOpMatch (pyStrip e)).isSome = true) := by
      rw [he]; decide
    rw [if_neg h1, if_pos he, if_neg (Nat.succ_ne_zero d),
      Nat.add_sub_cancel, ihrest rest (i + 1 + body.length + 1) d]
    have hlen : i + 1 + body.length + 1 + rest'.length
        = i + (c :: body ++ e :: rest').length := by
      simp [List.length_append, List.length_cons]; omega
    rw [hlen]
  | ifElse c thn el els e rest' hc hel he _ _ _ ihthn ihels ihrest =>
    intro rest i d
    have hassoc : (c :: thn ++ el :: els ++ e :: rest') ++ rest
        = c :: (thn ++ el :: (els ++ e :: (rest' ++ rest))) := by simp
    rw [hassoc]
    simp only [skipEndifGo]
    rw [if_pos hc, ihthn (el :: (els ++ e :: (rest' ++ rest))) (i + 1) (d + 1)]
    simp only [skipEndifGo]
    have h1 : ¬ ((ifOpMatch (pyStrip el)).isSome = true) := by
      rw [hel]; decide
    have h2 : pyStrip el ≠ strE "EndIf" := by rw [hel]; decide
    rw [if_neg h1, if_neg h2,
      ihels (e :: (rest' ++ rest)) (i + 1 + thn.length + 1) (d + 1)]
    simp only [skipEndifGo]
    have h4 : ¬ ((ifOpMatch (pyStrip e)).isSome = true) := by
      rw [he]; decide
    rw [if_neg h4, if_pos he, if_neg (Nat.succ_ne_zero d),
      Nat.add_sub_cancel,
      ihrest rest (i + 1 + thn.length + 1 + els.length + 1) d]
    have hlen : i + 1 + thn.length + 1 + els.length + 1 + rest'.length
        = i + (c :: thn ++ el :: els ++ e :: rest').length := by
      simp [List.length_append, List.length_cons]; omega
    rw [hlen]

/-- C7: in any program, for an `If` line at index `pre.length` heading a
well-formed block: with no `Else` branch, `skip_if_block` returns the index
of the matching `EndIf` (`pre.length + 1 + thn.length`); with an `Else`
branch it returns the index of the matching `Else`; and `skip_to_endif`
applied to that `Else` index returns the index of the matching `EndIf`. -/
theorem C7_skip_matching (pre thn els rest : List Str) (c el e : Str)
    (hc : (ifOpMatch (pyStrip c)).isSome = true)
    (hthn : BalancedIf thn) (hels : BalancedIf els)
    (hel : pyStrip el = strE "Else") (he : pyStrip e = strE "EndIf") :
    (skip_if_block (pre ++ c :: thn ++ e :: rest) pre.length
        = pre.length + 1 + thn.length) ∧
    (skip_if_block (pre ++ c :: thn ++ el :: els ++ e :: rest) pre.length
        = pre.length + 1 + thn.length) ∧
    (skip_to_endif (pre ++ c :: thn ++ el :: els ++ e :: rest)
        (pre.length + 1 + thn.length)
        = pre.length + 1 + thn.length + 1 + els.length) := by
  refine ⟨?_, ?_, ?_⟩
  · unfold skip_if_block
    have hdrop : (pre ++ c :: thn ++ e :: rest).drop (pre.length + 1)
        = thn ++ e :: rest := by
      rw [show pre ++ c :: thn ++ e :: rest
            = (pre ++ [c]) ++ (thn ++ e :: rest) from by simp,
        show pre.length + 1 = (pre ++ [c]).length from by simp]
      exact List.drop_left _ _
    rw [hdrop, skipIfGo_balanced thn hthn (e :: rest) (pre.length + 1) 0]
    simp only [skipIfGo]
    have h1 : ¬ ((ifOpMatch (pyStrip e)).isSome = true) := by
      rw [he]; decide
    rw [if_neg h1, if_pos he]
    simp
  · unfold skip_if_block
    have hdrop :
        (pre ++ c :: thn ++ el :: els ++ e :: rest).drop (pre.length + 1)
        = thn ++ el :: els ++ e :: rest := by
      rw [show pre ++ c :: thn ++ el :: els ++ e :: rest
            = (pre ++ [c]) ++ (thn ++ el :: els ++ e :: rest) from by simp,
        show pre.length + 1 = (pre ++ [c]).length from by simp]
      exact List.drop_left _ _
    rw [hdrop,
      show (thn ++ el :: els ++ e :: rest : List Str)
          = thn ++ (el :: (els ++ e :: rest)) from by simp,
      skipIfGo_balanced thn hthn (el :: (els ++ e :: rest)) (pre.length + 1) 0]
    simp only [skipIfGo]
    have h1 : ¬ ((ifOpMatch (pyStrip el)).isSome = true) := by
      rw [hel]; decide
    have h2 : pyStrip el ≠ strE "EndIf" := by rw [hel]; decide
    rw [if_neg h1, if_neg h2]
    simp [hel]
  · unfold skip_to_endif
    have hdrop :
        (pre ++ c :: thn ++ el :: els ++ e :: rest).drop
            (pre.length + 1 + thn.length + 1)
        = els ++ e :: rest := by
      rw [show pre ++ c :: thn ++ el :: els ++ e :: rest
            = (pre ++ c :: thn ++ [el]) ++ (els ++ e :: rest) from by simp,
        show pre.length + 1 + thn.length + 1
            = (pre ++ c :: thn ++ [el]).length from by simp [List.length_append]; omega]
      exact List.drop_left _ _
    rw [hdrop, skipEndifGo_balanced els hels (e :: rest)
      (pre.length + 1 + thn.length + 1) 0]
    simp only [skipEndifGo]
    have h4 : ¬ ((ifOpMatch (pyStrip e)).isSome = true) := by
      rw [he]; decide
    rw [if_neg h4, if_pos he]
    simp

/-- Witness for C7 at a concrete program: `If`, one-line then-branch,
`Else`, one-line else-branch, `EndIf`. -/
theorem C7_skip_matching_witness :
    (skip_if_block [strE "If[A] = \"1\"", strE "A", strE "EndIf"] 0 = 2) ∧
    (skip_if_block [strE "If[A] = \"1\"", strE "A", strE "Else", strE "B",
        strE "EndIf"] 0 = 2) ∧
    (skip_to_endif [strE "If[A] = \"1\"", strE "A", strE "Else", strE "B",
        strE "EndIf"] 2 = 4) :=
  C7_skip_matching [] [strE "A"] [strE "B"] [] (strE "If[A] = \"1\"")
    (strE "Else") (strE "EndIf") (by decide)
    (BalancedIf.plain (strE "A") [] (by decide) (by decide) (by decide)
      BalancedIf.nil)
    (BalancedIf.plain (strE "B") [] (by decide) (by decide) (by decide)
      BalancedIf.nil)
    (by decide) (by decide)

/-! ## C9: the program loader (`load_program`, `longi.py` line 1217)

The loader's state after each raw line; `out` logs `print` calls (the
deprecation warning's text is abbreviated, its wording is not at issue). -/

structure LoadState where
  in_function : Bool
  current_func : Str
  functions : List (Str × List Str)
  labels : List (Str × Nat)
  program_lines : List Str
  out : List Str
deriving DecidableEq

def load_init : LoadState :=
  { in_function := false, current_func := [], functions := [],
    labels := [], program_lines := [], out := [] }

/-- The body of `load_program`'s `for line in raw_lines` loop: strip,
remove inline comments, skip blank and `//` lines; `StartFunction[` (checked
before the `in_function` collection) starts a body, `EndFunction` ends it;
inside a body, lines accrue to the current function; otherwise `Label[...]`
and `Label:` record a label and every line joins the filtered program. -/
def load_step (st : LoadState) (raw : Str) : LoadState :=
  let stripped := strip_inline_comment (pyStrip raw)
  if stripped = [] ∨ (strE "//").isPrefixOf stripped then st
  else if (strE "StartFunction[").isPrefixOf stripped then
    let name := (stripped.drop (strE "StartFunction[").length).takeWhile
      (fun c => c != ']')
    { st with
      in_function := true
      current_func := name
      functions := updateA st.functions name [] }
  else if stripped = strE "EndFunction" then
    { st with in_function := false, current_func := [] }
  else if st.in_function then
    if stripped ≠ [] ∧ ¬ (strE "//").isPrefixOf stripped then
      { st with
        functions := updateA st.functions st.current_func
          (((lookupA st.functions st.current_func).getD []) ++ [stripped]) }
    else st
  else if (strE "Label[").isPrefixOf stripped ∧ ']' ∈ stripped then
    { st with
      labels := updateA st.labels
        (pyStrip ((stripped.drop (strE "Label[").length).takeWhile
          (fun c => c != ']')))
        st.program_lines.length
      program_lines := st.program_lines ++ [stripped] }
  else if (strE "Label:").isPrefixOf stripped then
    { st with
      out := st.out ++ [strE "[WARN] Deprecated label syntax"]
      labels := updateA st.labels (pyStrip (stripped.drop 6))
        st.program_lines.length
      program_lines := st.program_lines ++ [stripped] }
  else { st with program_lines := st.program_lines ++ [stripped] }

/-- Embedding of `load_program` on the raw lines of the file. -/
def load_program (raw_lines : List Str) : LoadState :=
  raw_lines.foldl load_step load_init

/-- C9 counterexample: a `StartFunction[B]` line while already inside
function `A` is not rejected — no failure of any kind occurs (the loader
is total and prints nothing), `B`'s body simply begins; there is no
`NestedFunction` check anywhere in the loader. -/
theorem C9_nested_function_counterexample :
    load_program [strE "StartFunction[A]", strE "StartFunction[B]",
        strE "EndFunction", strE "X"] =
      { in_function := false, current_func := [],
        functions := [(strE "A", []), (strE "B", [])],
        labels := [], program_lines := [strE "X"], out := [] } := by decide

theorem takeWhile_append_bracket (name : Str) (h : ']' ∉ name) :
    (name ++ strE "]").takeWhile (fun c => c != ']') = name := by
  induction name with
  | nil => decide
  | cons c t ih =>
    have hc : (c != ']') = true := by
      simp only [bne_iff_ne]
      intro he
      exact h (he ▸ List.mem_cons_self c t)
    have ht : ']' ∉ t := fun hm => h (List.mem_cons_of_mem c hm)
    simp only [List.cons_append, List.takeWhile_cons, hc, if_true, ih ht]

/-- C9 as amended: a `StartFunction[NAME]` line met while the loader is
already inside a function body silently starts a new body for `NAME`
(recorded empty in the function table, with `NAME` becoming the current
function), and an `EndFunction` line closes the current body, returning
the loader to top level. -/
theorem C9_amended_nested_start (st : LoadState) (raw name : Str)
    (hin : st.in_function = true)
    (hstrip : strip_inline_comment (pyStrip raw)
        = strE "StartFunction[" ++ name ++ strE "]")
    (hname : ']' ∉ name) :
    (load_step st raw
        = { st with
            in_function := true
            current_func := name
            functions := updateA st.functions name [] }) ∧
    (load_step st (strE "EndFunction")
        = { st with in_function := false, current_func := [] }) := by
  constructor
  · unfold load_step
    rw [hstrip]
    have h0 : ¬ (strE "StartFunction[" ++ name ++ strE "]" = [] ∨
        (strE "//").isPrefixOf (strE "StartFunction[" ++ name ++ strE "]")) := by
      intro h
      rcases h with h | h
      · have hh := congrArg List.head? h
        have hS : (strE "StartFunction[" ++ name ++ strE "]").head?
            = some 'S' := rfl
        rw [hS] at hh
        simp at hh
      · rw [List.isPrefixOf_iff_prefix] at h
        rcases h with ⟨t, ht⟩
        have hh := congrArg List.head? ht
        have hS : (strE "StartFunction[" ++ name ++ strE "]").head?
            = some 'S' := rfl
        have hP : (strE "//" ++ t).head? = some '/' := rfl
        rw [hS, hP] at hh
        simp at hh
    rw [if_neg h0]
    have h1 : (strE "StartFunction[").isPrefixOf
        (strE "StartFunction[" ++ name ++ strE "]") = true := by
      simp [List.isPrefixOf_iff_prefix, List.append_assoc]
    rw [if_pos h1]
    have h2 : (strE "StartFunction[" ++ name ++ strE "]").drop
        (strE "StartFunction[").length = name ++ strE "]" := by
      rw [List.append_assoc]
      exact List.drop_left _ _
    rw [h2, takeWhile_append_bracket name hname]
  · unfold load_step
    have hstr : strip_inline_comment (pyStrip (strE "EndFunction"))
        = strE "EndFunction" := by decide
    rw [hstr]
    rw [if_neg (by decide), if_neg (by decide), if_pos rfl]

/-- A loader state inside function `A`, for the C9 witness. -/
def c9st : LoadState :=
  { in_function := true, current_func := strE "A",
    functions := [(strE "A", [])], labels := [], program_lines := [],
    out := [] }

/-- Witness for the amended C9 at a concrete state: inside `A`, the line
`StartFunction[B]` starts `B`; `EndFunction` returns to top level. -/
theorem C9_amended_nested_start_witness :
    (load_step c9st (strE "StartFunction[B]")
        = { c9st with
            in_function := true
            current_func := strE "B"
            functions := updateA c9st.functions (strE "B") [] }) ∧
    (load_step c9st (strE "EndFunction")
        = { c9st with in_function := false, current_func := [] }) :=
  C9_amended_nested_start c9st (strE "StartFunction[B]") (strE "B")
    (by decide) (by decide) (by decide)

/-! ## The bytecode compiler (`longc.py`)

`compile_long_to_vm` (line 1297) with its `compile_lines` worker, and the
emitter `build_vm_program_asm` (line 1705).  `longc.py`'s
`strip_inline_comment` is character-for-character the interpreter's, so
the one embedding serves both.  Statement forms irrelevant to the claims
under verification (`DisplayText`, `SetColor`, `Set`, `SetCursor`,
`DrawBox`, `FillLines`, `Return`) stop compilation with an `unmodelled`
marker rather than being approximated; every modelled branch follows the
source's dispatch order exactly. -/

inductive Op where
  | PRINT_STR (label : Str)
  | PRINT_VAR (v : Str)
  | SET_STR (v : Str) (label : Str)
  | SET_VAR (v w : Str)
  | INPUT (v : Str)
  | INPUT_WORDS (a b c d e f : Str)
  | IF_NE_STR (v : Str) (label target : Str)
  | IF_NUM_VI (v : Str) (opc : Nat) (imm : Nat) (target : Str)
  | IF_NUM_VV (v : Str) (opc : Nat) (w : Str) (target : Str)
  | GOTO (target : Str)
  | CALL (target : Str)
  | RET
  | NL
  | HALT
  | CLEAR
  | RESET_COLOR
  | FILL_LINE
  | NO_NL
  | SET_COLOR (which : Str) (code : Nat)
  | FILL_LINES (n : Nat)
  | SET_CURSOR_II (r c : Nat)
  | SET_CURSOR_VV (r c : Str)
  | DRAW_BOX (w h : Nat) (ch : Char)
  | MATH_VI (v l : Str) (o : Char) (imm : Nat)
  | MATH_VV (v l : Str) (o : Char) (w : Str)
deriving DecidableEq

/-- One entry of the compiler's `if_stack`. -/
structure IfEntry where
  false_label : Str
  end_label : Str
  has_else : Bool
deriving DecidableEq

/-- The compiler's mutable state (`compile_long_to_vm` locals); the stack
top of `if_stack`/`loop_stack` (Python list end) is the list head here.
`out` logs `print` calls. -/
structure CompState where
  ops : List Op
  label_positions : List (Str × Nat)
  strings : List (Str × Str)
  string_order : List Str
  variables_map : List (Str × Nat)
  if_stack : List IfEntry
  loop_stack : List Str
  if_counter : Nat
  loop_counter : Nat
  out : List Str
deriving DecidableEq

inductive CompErr where
  | valueError (msg : Str)
  | unmodelled (line : Str)
deriving DecidableEq

def compInit : CompState :=
  { ops := [], label_positions := [], strings := [], string_order := [],
    variables_map := [], if_stack := [], loop_stack := [], if_counter := 0,
    loop_counter := 0, out := [] }

def emit (st : CompState) (op : Op) : CompState :=
  { st with ops := st.ops ++ [op] }

/-- `add_label`: record `name` at the current opcode index. -/
def add_label (st : CompState) (name : Str) : CompState :=
  { st with label_positions := updateA st.label_positions name st.ops.length }

/-- `add_string`: intern `text`, returning its `str_<k>` label. -/
def add_string (st : CompState) (text : Str) : Str × CompState :=
  match lookupA st.strings text with
  | some l => (l, st)
  | none =>
    let l := strE "str_" ++ natToStr st.strings.length
    (l, { st with
          strings := updateA st.strings text l
          string_order := st.string_order ++ [text] })

/-- `add_var`: intern a variable name with the next slot index. -/
def add_var (st : CompState) (name : Str) : CompState :=
  match lookupA st.variables_map name with
  | some _ => st
  | none =>
    { st with
      variables_map := updateA st.variables_map name st.variables_map.length }

def isDigits (s : Str) : Bool :=
  !s.isEmpty && s.all (fun c => decide ('0' ≤ c ∧ c ≤ '9'))

/-- `re.fullmatch(r"-?\d+", s)`. -/
def isIntLit (s : Str) : Bool :=
  isDigits s || ((strE "-").isPrefixOf s && isDigits (s.drop 1))

def digitsToNat (s : Str) : Nat :=
  s.foldl (fun a c => a * 10 + (c.toNat - '0'.toNat)) 0

def ifFalseLabel (n : Nat) : Str := strE "IF_FALSE_" ++ natToStr n

def ifEndLabel (n : Nat) : Str := strE "IF_END_" ++ natToStr n

def loopLabel (n : Nat) : Str := strE "LOOP_" ++ natToStr n

/-- Tail of a `CallFunction[...]` line after the closing bracket:
`\s*(?:->\s*(\S+)\s*)?$` — `some none` when empty, `some (some t)` for a
`-> t` suffix. -/
def callTailParse (tail : Str) : Option (Option Str) :=
  let t := tail.dropWhile pyIsSpace
  if t = [] then some none
  else if (strE "->").isPrefixOf t then
    let t2 := (t.drop 2).dropWhile pyIsSpace
    let tgt := t2.takeWhile (fun c => !pyIsSpace c)
    if tgt = [] then none
    else if (t2.drop tgt.length).dropWhile pyIsSpace = [] then some (some tgt)
    else none
  else none

/-- The lazy group of `CallFunction\[(.*?)\]...`: try each `]` left to
right until the remainder parses. -/
def callGroupGo (acc : Str) : Str → Option (Str × Option Str)
  | [] => none
  | c :: t =>
    if c = ']' then
      match callTailParse t with
      | some tgt => some (acc.reverse, tgt)
      | none => callGroupGo (c :: acc) t
    else callGroupGo (c :: acc) t

/-- The body of `compile_lines`' loop for one line, in the source's
dispatch order. -/
def compileLine (st : CompState) (raw : Str) : Except CompErr CompState :=
  let line := strip_inline_comment (pyStrip raw)
  if line = [] ∨ (strE "//").isPrefixOf line then .ok st
  else if line.filter (fun c => c != ' ') ∈
      [strE "[16BIT]", strE "startprogram", strE "endprogram",
       strE "startsection", strE "endsection"] then .ok st
  else if (strE "Label[").isPrefixOf line ∧ ']' ∈ line then
    .ok (add_label st
      (strE "LBL_" ++
        pyStrip ((line.drop (strE "Label[").length).takeWhile
          (fun c => c != ']'))))
  else if (strE "Label:").isPrefixOf line then
    .ok (add_label
      { st with out := st.out ++ [strE "[WARN] Deprecated label syntax"] }
      (strE "LBL_" ++ pyStrip (line.drop (strE "Label:").length)))
  else if (strE "DisplayTextRaw(").isPrefixOf line then .error (.unmodelled line)
  else if (strE "DisplayText(").isPrefixOf line then .error (.unmodelled line)
  else if (strE "SetColor[").isPrefixOf line then .error (.unmodelled line)
  else if line = strE "ResetColor" then .ok (emit st .RESET_COLOR)
  else if line = strE "ClearScreen" then .ok (emit st .CLEAR)
  else if strUpper (pyStrip line) = strE "HALT" then .ok (emit st .HALT)
  else if line = strE "FillLine" then .ok (emit st .FILL_LINE)
  else if (strE "FillLines[").isPrefixOf line ∧ endsWithC line ']' then
    .error (.unmodelled line)
  else if (strE "SetCursor[").isPrefixOf line then .error (.unmodelled line)
  else if (strE "DrawBox[").isPrefixOf line then .error (.unmodelled line)
  else if (strE "TrackInput[KEYBOARD]").isPrefixOf line then
    let st1 := [strE "INPUT", strE "WORD1", strE "WORD2", strE "WORD3",
      strE "WORDCOUNT", strE "WORDREST"].foldl add_var st
    .ok (emit st1 (.INPUT_WORDS (strE "INPUT") (strE "WORD1") (strE "WORD2")
      (strE "WORD3") (strE "WORDCOUNT") (strE "WORDREST")))
  else if (strE "Set[").isPrefixOf line then .error (.unmodelled line)
  else if (strE "If[").isPrefixOf line then
    match ifOpMatch line with
    | none => .error (.valueError (strE "Invalid If condition"))
    | some (g1, op, g3) =>
      let left := pyStrip g1
      let right_raw := pyStrip g3
      let quoted := (startsWithC right_raw '"' ∧ endsWithC right_raw '"') ∨
        (startsWithC right_raw '\'' ∧ endsWithC right_raw '\'')
      let right := if quoted then (right_raw.drop 1).dropLast else right_raw
      let right_is_var := if quoted then false else !isIntLit right_raw
      if ¬ quoted ∧ isIntLit right_raw ∧ startsWithC right_raw '-' then
        .error (.valueError
          (strE "Numeric comparisons do not support negative immediates in VM mode"))
      else
        let st1 := add_var st left
        let if_id := st1.if_counter + 1
        let st2 := { st1 with if_counter := if_id }
        let fl := ifFalseLabel if_id
        let el := ifEndLabel if_id
        let push := fun (s : CompState) =>
          { s with if_stack :=
              { false_label := fl, end_label := el, has_else := false } ::
                s.if_stack }
        if op = strE "=" then
          let (lbl, st3) := add_string st2 right
          .ok (push (emit st3 (.IF_NE_STR left lbl fl)))
        else if op = strE "<" ∨ op = strE "<=" ∨ op = strE ">" ∨
            op = strE ">=" then
          let opc : Nat :=
            if op = strE "<" then 0 else if op = strE "<=" then 1
            else if op = strE ">" then 2 else 3
          if right_is_var then
            .ok (push (emit (add_var st2 right) (.IF_NUM_VV left opc right fl)))
          else if ¬ (isDigits right = true) then
            .error (.valueError
              (strE "Numeric comparisons require a numeric literal or variable"))
          else .ok (push (emit st2 (.IF_NUM_VI left opc (digitsToNat right) fl)))
        else .error (.valueError (strE "Unsupported If operator"))
  else if line = strE "Else" then
    match st.if_stack with
    | [] => .error (.valueError (strE "Else without matching If"))
    | e :: rest =>
      let st1 := add_label (emit st (.GOTO e.end_label)) e.false_label
      .ok { st1 with if_stack := { e with has_else := true } :: rest }
  else if line = strE "EndIf" then
    match st.if_stack with
    | [] => .error (.valueError (strE "EndIf without matching If"))
    | e :: rest =>
      let st1 := add_label st (if e.has_else then e.end_label else e.false_label)
      .ok { st1 with if_stack := rest }
  else if (strE "Loop[FOREVER]").isPrefixOf line then
    let n := st.loop_counter + 1
    let st1 := add_label { st with loop_counter := n } (loopLabel n)
    .ok { st1 with loop_stack := loopLabel n :: st1.loop_stack }
  else if line = strE "EndLoop" then
    match st.loop_stack with
    | [] => .error (.valueError (strE "EndLoop without matching Loop"))
    | l :: rest => .ok { emit st (.GOTO l) with loop_stack := rest }
  else if (strE "Goto[").isPrefixOf line then
    .ok (emit st (.GOTO (strE "LBL_" ++
      (line.drop (strE "Goto[").length).takeWhile (fun c => c != ']'))))
  else if (strE "CallFunction[").isPrefixOf line then
    match callGroupGo [] (line.drop (strE "CallFunction[").length) with
    | none => .error (.valueError (strE "Invalid CallFunction syntax"))
    | some (g1, tgt) =>
      let func := pyStrip g1
      match tgt with
      | none => .ok (emit st (.CALL (strE "FUNC_" ++ func)))
      | some target =>
        let (ret_label, st1) := add_string st []
        let st2 := emit (add_var st1 (strE "__RETVAL"))
          (.SET_STR (strE "__RETVAL") ret_label)
        let st3 := emit st2 (.CALL (strE "FUNC_" ++ func))
        let st4 := add_var (add_var st3 target) (strE "__RETVAL")
        .ok (emit st4 (.SET_VAR target (strE "__RETVAL")))
  else if (strE "Return[").isPrefixOf line ∧ endsWithC line ']' then
    .error (.unmodelled line)
  else .error (.valueError (strE "Unsupported command in VM compile mode"))

def compile_lines : CompState → List Str → Except CompErr CompState
  | st, [] => .ok st
  | st, l :: ls =>
    match compileLine st l with
    | .error e => .error e
    | .ok st' => compile_lines st' ls

/-- The per-function pass of `compile_long_to_vm`: a `FUNC_<name>` label,
the body, a trailing `RET`; the `if_stack` and counters flow through all
units (they are `nonlocal` in the source). -/
def compile_funcs : CompState → List (Str × List Str) → Except CompErr CompState
  | st, [] => .ok st
  | st, (name, body) :: rest =>
    match compile_lines (add_label st (strE "FUNC_" ++ name)) body with
    | .error e => .error e
    | .ok st' => compile_funcs (emit st' .RET) rest

/-- Embedding of `compile_long_to_vm` (`longc.py` line 1297). -/
def compile_long_to_vm (lines : List Str)
    (functions_map : List (Str × List Str)) : Except CompErr CompState :=
  match compile_lines compInit lines with
  | .error e => .error e
  | .ok st => compile_funcs st functions_map

/-- `KeyError` lookup of the emitter (`variables_map[name]`). -/
def vmLookup (vm : List (Str × Nat)) (name : Str) : Except Str Nat :=
  match lookupA vm name with
  | some i => .ok i
  | none => .error name

def dbLine (n : Nat) : Str := strE "    db " ++ natToStr n

def dwName (s : Str) : Str := strE "    dw " ++ s

def dwNum (n : Nat) : Str := strE "    dw " ++ natToStr n

/-- Two emitter lookups in sequence (the second only on success). -/
def vmLookup2 (vm : List (Str × Nat)) (a b : Str) : Except Str (Nat × Nat) :=
  match vmLookup vm a with
  | .error n => .error n
  | .ok i =>
    match vmLookup vm b with
    | .error n => .error n
    | .ok j => .ok (i, j)

/-- The assembly lines `build_vm_program_asm` writes for one opcode. -/
def opAsmLines (vm : List (Str × Nat)) : Op → Except Str (List Str)
  | .PRINT_STR l => .ok [strE "    db 0x01", dwName l]
  | .HALT => .ok [strE "    db 0x00"]
  | .PRINT_VAR v =>
    match vmLookup vm v with
    | .error n => .error n
    | .ok i => .ok [strE "    db 0x02", dbLine i]
  | .SET_STR v l =>
    match vmLookup vm v with
    | .error n => .error n
    | .ok i => .ok [strE "    db 0x03", dbLine i, dwName l]
  | .SET_VAR v w =>
    match vmLookup2 vm v w with
    | .error n => .error n
    | .ok (i, j) => .ok [strE "    db 0x04", dbLine i, dbLine j]
  | .INPUT v =>
    match vmLookup vm v with
    | .error n => .error n
    | .ok i => .ok [strE "    db 0x05", dbLine i]
  | .INPUT_WORDS a b c d e f =>
    match vmLookup2 vm a b, vmLookup2 vm c d, vmLookup2 vm e f with
    | .ok (ia, ib), .ok (ic, jd), .ok (ke, jf) =>
      .ok [strE "    db 0x19", dbLine ia, dbLine ib, dbLine ic, dbLine jd,
        dbLine ke, dbLine jf]
    | .error n, _, _ => .error n
    | _, .error n, _ => .error n
    | _, _, .error n => .error n
  | .IF_NE_STR v l t =>
    match vmLookup vm v with
    | .error n => .error n
    | .ok i => .ok [strE "    db 0x06", dbLine i, dwName l, dwName t]
  | .IF_NUM_VI v opc imm t =>
    match vmLookup vm v with
    | .error n => .error n
    | .ok i => .ok [strE "    db 0x17", dbLine i, dbLine opc, dwNum imm,
        dwName t]
  | .IF_NUM_VV v opc w t =>
    match vmLookup2 vm v w with
    | .error n => .error n
    | .ok (i, j) => .ok [strE "    db 0x18", dbLine i, dbLine opc, dbLine j,
        dwName t]
  | .GOTO t => .ok [strE "    db 0x07", dwName t]
  | .CALL t => .ok [strE "    db 0x08", dwName t]
  | .RET => .ok [strE "    db 0x09"]
  | .NL => .ok [strE "    db 0x0B"]
  | .SET_COLOR which code =>
    .ok [strE "    db 0x0C",
      if which = strE "FG" then strE "    db 0" else strE "    db 1",
      dbLine code]
  | .RESET_COLOR => .ok [strE "    db 0x15"]
  | .CLEAR => .ok [strE "    db 0x0D"]
  | .NO_NL => .ok [strE "    db 0x0E"]
  | .FILL_LINE => .ok [strE "    db 0x14"]
  | .FILL_LINES n => .ok [strE "    db 0x16", dbLine n]
  | .DRAW_BOX w h ch =>
    .ok [strE "    db 0x0F", dbLine w, dbLine h, dbLine ch.toNat]
  | .SET_CURSOR_VV r c =>
    match vmLookup2 vm r c with
    | .error n => .error n
    | .ok (i, j) => .ok [strE "    db 0x12", dbLine i, dbLine j]
  | .SET_CURSOR_II r c => .ok [strE "    db 0x13", dbLine r, dbLine c]
  | .MATH_VI v l o imm =>
    match vmLookup2 vm v l with
    | .error n => .error n
    | .ok (i, j) => .ok [strE "    db 0x10", dbLine i, dbLine j,
        dbLine o.toNat, dwNum imm]
  | .MATH_VV v l o w =>
    match vmLookup2 vm v l, vmLookup vm w with
    | .ok (i, j), .ok k => .ok [strE "    db 0x11", dbLine i, dbLine j,
        dbLine o.toNat, dbLine k]
    | .error n, _ => .error n
    | _, .error n => .error n

/-- The labels recorded at opcode index `i`, in insertion order
(`labels_by_index`). -/
def labelsAt (lp : List (Str × Nat)) (i : Nat) : List Str :=
  (lp.filter (fun p => p.2 == i)).map (fun p => p.1)

/-- The bytecode lines for the opcode at index `i` onwards: pending labels,
the `L<i>:` marker, the opcode's bytes. -/
def asmGo (vm : List (Str × Nat)) (lp : List (Str × Nat)) :
    Nat → List Op → Except Str (List Str)
  | _, [] => .ok []
  | i, op :: rest =>
    match opAsmLines vm op with
    | .error n => .error n
    | .ok ls =>
      match asmGo vm lp (i + 1) rest with
      | .error n => .error n
      | .ok tail =>
        .ok ((labelsAt lp i).map (fun n => n ++ [':'])
          ++ [strE "L" ++ natToStr i ++ [':']] ++ ls ++ tail)

/-- Embedding of `build_vm_program_asm` (`longc.py` line 1705), bytecode
section; the fixed data section that follows (buffers, variable slots,
interned string bytes) plays no part in the claims and is not
transcribed. -/
def build_vm_program_asm (st : CompState) : Except Str (List Str) :=
  match asmGo st.variables_map st.label_positions 0 st.ops with
  | .error n => .error n
  | .ok body =>
    .ok ([strE "; -------------- Bytecode --------------", strE "program:"]
      ++ body
      ++ (labelsAt st.label_positions st.ops.length).map (fun n => n ++ [':'])
      ++ [strE "program_end:", strE "    db 0x0A"])

/-- Embedding of `compile_to_boot_sector`'s error handling (`longc.py`
line 1875): a `ValueError` from `compile_long_to_vm` is caught, the
driver exits non-zero, and no assembly is produced.  A `KeyError` from
the emitter is not caught by the source at all (the process aborts);
it is marked here with the `unmodelled` constructor — either way no
assembly results. -/
def compile_to_boot_sector (lines : List Str)
    (functions_map : List (Str × List Str)) : Except CompErr (List Str) :=
  match compile_long_to_vm lines functions_map with
  | .error e => .error e
  | .ok st =>
    match build_vm_program_asm st with
    | .error name => .error (.unmodelled (strE "KeyError: " ++ name))
    | .ok ls => .ok ls

/-! ## C4: compile-time structure errors -/

/-- C4 counterexample: an `If` (or `Loop`) left unclosed at the end of the
statement stream is not an error — compilation succeeds with the dangling
entry still on the stack, and the driver emits an image. -/
theorem C4_unclosed_if_counterexample :
    ((compile_long_to_vm [strE "If[X] = \"1\""] []).map
        (fun st => st.if_stack.length) = .ok 1) ∧
    ((compile_long_to_vm [strE "Loop[FOREVER]"] []).map
        (fun st => st.loop_stack.length) = .ok 1) ∧
    ((compile_to_boot_sector [strE "If[X] = \"1\""] []).map (fun _ => ()) =
      .ok ()) :=
  ⟨by decide, by decide, by decide⟩

theorem compileLine_Else (st : CompState) :
    compileLine st (strE "Else") =
      match st.if_stack with
      | [] => .error (.valueError (strE "Else without matching If"))
      | e :: rest =>
        .ok { add_label (emit st (.GOTO e.end_label)) e.false_label with
              if_stack := { e with has_else := true } :: rest } := rfl

theorem compileLine_EndIf (st : CompState) :
    compileLine st (strE "EndIf") =
      match st.if_stack with
      | [] => .error (.valueError (strE "EndIf without matching If"))
      | e :: rest =>
        .ok { add_label st (if e.has_else then e.end_label else e.false_label)
              with if_stack := rest } := rfl

theorem compileLine_EndLoop (st : CompState) :
    compileLine st (strE "EndLoop") =
      match st.loop_stack with
      | [] => .error (.valueError (strE "EndLoop without matching Loop"))
      | l :: rest => .ok { emit st (.GOTO l) with loop_stack := rest } := rfl

/-- C4 as amended: `Else` and `EndIf` with no open `If`, and `EndLoop`
with no open `Loop`, are compile-time `ValueError`s, and any compile error
is fatal — the driver propagates it and builds no image; but an unclosed
`If` or `Loop` at the end of the stream is not detected (see the
counterexample for the successful compile). -/
theorem C4_amended_compile_errors (st : CompState) (lines : List Str)
    (fns : List (Str × List Str)) (e : CompErr)
    (hif : st.if_stack = []) (hloop : st.loop_stack = [])
    (herr : compile_long_to_vm lines fns = .error e) :
    (compileLine st (strE "Else")
        = .error (.valueError (strE "Else without matching If"))) ∧
    (compileLine st (strE "EndIf")
        = .error (.valueError (strE "EndIf without matching If"))) ∧
    (compileLine st (strE "EndLoop")
        = .error (.valueError (strE "EndLoop without matching Loop"))) ∧
    (compile_to_boot_sector lines fns = .error e) := by
  refine ⟨?_, ?_, ?_, ?_⟩
  · rw [compileLine_Else, hif]
  · rw [compileLine_EndIf, hif]
  · rw [compileLine_EndLoop, hloop]
  · unfold compile_to_boot_sector
    rw [herr]

/-- Witness for the amended C4 at the initial compiler state and the
one-line program `Else`. -/
theorem C4_amended_compile_errors_witness :
    (compileLine compInit (strE "Else")
        = .error (.valueError (strE "Else without matching If"))) ∧
    (compileLine compInit (strE "EndIf")
        = .error (.valueError (strE "EndIf without matching If"))) ∧
    (compileLine compInit (strE "EndLoop")
        = .error (.valueError (strE "EndLoop without matching Loop"))) ∧
    (compile_to_boot_sector [strE "Else"] []
        = .error (.valueError (strE "Else without matching If"))) :=
  C4_amended_compile_errors compInit [strE "Else"] []
    (.valueError (strE "Else without matching If")) (by decide) (by decide)
    (by decide)

/-! ## C3: label targets of the emitted opcode stream -/

/-- The label operands an opcode carries (jump/call targets). -/
def opLabelOperands : Op → List Str
  | .IF_NE_STR _ _ t => [t]
  | .IF_NUM_VI _ _ _ t => [t]
  | .IF_NUM_VV _ _ _ t => [t]
  | .GOTO t => [t]
  | .CALL t => [t]
  | _ => []

/-- The compiler-generated control-flow label families. -/
def isGenLabel (s : Str) : Bool :=
  (strE "IF_FALSE_").isPrefixOf s || (strE "IF_END_").isPrefixOf s ||
    (strE "LOOP_").isPrefixOf s

/-- The label an open `if_stack` entry will record at its `EndIf` (the
source's `end_label if has_else else false_label`). -/
def pendingLabel (e : IfEntry) : Str :=
  if e.has_else then e.end_label else e.false_label

/-- Invariant threaded through `compile_lines`: every generated label
operand already emitted is recorded or pending on an open `if_stack`
entry; recorded positions never exceed the opcode count; every open loop
label is recorded. -/
def CompInv (st : CompState) : Prop :=
  (∀ op ∈ st.ops, ∀ t ∈ opLabelOperands op, isGenLabel t = true →
    (lookupA st.label_positions t).isSome = true ∨
      ∃ e ∈ st.if_stack, pendingLabel e = t) ∧
  (∀ t p, lookupA st.label_positions t = some p → p ≤ st.ops.length) ∧
  (∀ l ∈ st.loop_stack, (lookupA st.label_positions l).isSome = true)

/-- A statement the compiler handles without touching the `if`/`loop`
stacks and without emitting generated-label operands; new label records
point at the current opcode index. -/
def PlainStep (l : Str) : Prop :=
  ∀ st : CompState, ∃ st' : CompState,
    compileLine st l = .ok st' ∧
    st'.if_stack = st.if_stack ∧
    st'.loop_stack = st.loop_stack ∧
    (∃ d, st'.ops = st.ops ++ d ∧
      ∀ op ∈ d, ∀ t ∈ opLabelOperands op, isGenLabel t = false) ∧
    (∀ t, (lookupA st.label_positions t).isSome = true →
      (lookupA st'.label_positions t).isSome = true) ∧
    (∀ t p, lookupA st'.label_positions t = some p →
      lookupA st.label_positions t = some p ∨ p = st.ops.length)

/-- An `If` statement the compiler accepts: it pushes one fresh entry and
emits one opcode whose sole label operand is the entry's false label. -/
def IfStep (l : Str) : Prop :=
  ∀ st : CompState, ∃ st' : CompState, ∃ fl el : Str, ∃ op : Op,
    compileLine st l = .ok st' ∧
    st'.if_stack =
      { false_label := fl, end_label := el, has_else := false } ::
        st.if_stack ∧
    st'.loop_stack = st.loop_stack ∧
    st'.label_positions = st.label_positions ∧
    st'.ops = st.ops ++ [op] ∧
    opLabelOperands op = [fl]

/-- Well-formed statement streams for the compiler: plain statements and
properly nested `If`/`Else`/`EndIf` and `Loop[FOREVER]`/`EndLoop`
blocks. -/
inductive CBal : List Str → Prop
  | nil : CBal []
  | plain (l : Str) (rest : List Str) :
      PlainStep l → CBal rest → CBal (l :: rest)
  | ifNoElse (c : Str) (body rest : List Str) :
      IfStep c → CBal body → CBal rest →
      CBal (c :: (body ++ strE "EndIf" :: rest))
  | ifElse (c : Str) (thn els rest : List Str) :
      IfStep c → CBal thn → CBal els → CBal rest →
      CBal (c :: (thn ++ strE "Else" :: (els ++ strE "EndIf" :: rest)))
  | loop (body rest : List Str) :
      CBal body → CBal rest →
      CBal (strE "Loop[FOREVER]" :: (body ++ strE "EndLoop" :: rest))

theorem lookupA_updateA_isSome {κ β : Type} [DecidableEq κ]
    (m : List (κ × β)) (k k' : κ) (v : β)
    (h : (lookupA m k').isSome = true) :
    (lookupA (updateA m k v) k').isSome = true := by
  by_cases hk : k' = k
  · subst hk; rw [lookupA_updateA_self]; rfl
  · rw [lookupA_updateA_ne m k k' v hk]; exact h

theorem lookupA_updateA_cases {κ β : Type} [DecidableEq κ]
    (m : List (κ × β)) (k k' : κ) (v v' : β)
    (h : lookupA (updateA m k v) k' = some v') :
    lookupA m k' = some v' ∨ v' = v := by
  by_cases hk : k' = k
  · subst hk; rw [lookupA_updateA_self] at h
    exact Or.inr (Option.some.inj h).symm
  · rw [lookupA_updateA_ne m k k' v hk] at h; exact Or.inl h

theorem compile_lines_append (a b : List Str) :
    ∀ st : CompState,
      compile_lines st (a ++ b) =
        match compile_lines st a with
        | .error e => .error e
        | .ok st' => compile_lines st' b := by
  induction a with
  | nil => intro st; rfl
  | cons l t ih =>
    intro st
    simp only [List.cons_append, compile_lines]
    cases compileLine st l with
    | error e => rfl
    | ok st' => exact ih st'

theorem compileLine_Loop (st : CompState) :
    compileLine st (strE "Loop[FOREVER]") =
      .ok { add_label { st with loop_counter := st.loop_counter + 1 }
              (loopLabel (st.loop_counter + 1)) with
            loop_stack := loopLabel (st.loop_counter + 1) ::
              (add_label { st with loop_counter := st.loop_counter + 1 }
                (loopLabel (st.loop_counter + 1))).loop_stack } := rfl

/-- C3 counterexample: `Goto[MISSING]` with no `Label[MISSING]` anywhere
is accepted; the emitted `GOTO` carries the target `LBL_MISSING`, which
the label-position table does not record, and the emitter still writes it
symbolically (`dw LBL_MISSING`) into the assembly. -/
theorem C3_goto_unresolved_counterexample :
    ∃ st : CompState,
      compile_long_to_vm [strE "Goto[MISSING]"] [] = .ok st ∧
      st.ops = [Op.GOTO (strE "LBL_MISSING")] ∧
      lookupA st.label_positions (strE "LBL_MISSING") = none ∧
      ∃ asm, build_vm_program_asm st = .ok asm ∧
        dwName (strE "LBL_MISSING") ∈ asm :=
  ⟨{ compInit with ops := [Op.GOTO (strE "LBL_MISSING")] },
    by decide, by decide, by decide,
    ⟨[strE "; -------------- Bytecode --------------", strE "program:",
      strE "L0:", strE "    db 0x07", strE "    dw LBL_MISSING",
      strE "program_end:", strE "    db 0x0A"], by decide, by decide⟩⟩

theorem ops_ext_trans {a b c : List Op} (h1 : ∃ d, b = a ++ d)
    (h2 : ∃ d, c = b ++ d) : ∃ d, c = a ++ d := by
  obtain ⟨d1, h1⟩ := h1
  obtain ⟨d2, h2⟩ := h2
  exact ⟨d1 ++ d2, by rw [h2, h1, List.append_assoc]⟩

theorem plain_inv (st st1 : CompState) (d : List Op)
    (hif1 : st1.if_stack = st.if_stack)
    (hloop1 : st1.loop_stack = st.loop_stack)
    (hops1 : st1.ops = st.ops ++ d)
    (hd : ∀ op ∈ d, ∀ t ∈ opLabelOperands op, isGenLabel t = false)
    (hmono1 : ∀ t, (lookupA st.label_positions t).isSome = true →
      (lookupA st1.label_positions t).isSome = true)
    (hpos1 : ∀ t p, lookupA st1.label_positions t = some p →
      lookupA st.label_positions t = some p ∨ p = st.ops.length)
    (hinv : CompInv st) : CompInv st1 := by
  refine ⟨?_, ?_, ?_⟩
  · intro op hop t ht hgen
    rw [hops1] at hop
    rcases List.mem_append.mp hop with hop | hop
    · rcases hinv.1 op hop t ht hgen with h | ⟨e, he, hpe⟩
      · exact Or.inl (hmono1 t h)
      · exact Or.inr ⟨e, hif1 ▸ he, hpe⟩
    · rw [hd op hop t ht] at hgen
      exact absurd hgen (by simp)
  · intro t p hp
    have hlen : st.ops.length ≤ st1.ops.length := by
      rw [hops1]; simp
    rcases hpos1 t p hp with h | h
    · exact le_trans (hinv.2.1 t p h) hlen
    · exact h ▸ hlen
  · intro l' hl'
    rw [hloop1] at hl'
    exact hmono1 l' (hinv.2.2 l' hl')

theorem ifpush_inv (st st1 : CompState) (fl el : Str) (op : Op)
    (hif1 : st1.if_stack = ⟨fl, el, false⟩ :: st.if_stack)
    (hloop1 : st1.loop_stack = st.loop_stack)
    (hlp1 : st1.label_positions = st.label_positions)
    (hops1 : st1.ops = st.ops ++ [op])
    (hlab : opLabelOperands op = [fl])
    (hinv : CompInv st) : CompInv st1 := by
  refine ⟨?_, ?_, ?_⟩
  · intro o ho t ht hgen
    rw [hops1] at ho
    rcases List.mem_append.mp ho with ho | ho
    · rcases hinv.1 o ho t ht hgen with h | ⟨e, he, hpe⟩
      · exact Or.inl (by rw [hlp1]; exact h)
      · exact Or.inr ⟨e, by rw [hif1]; exact List.mem_cons_of_mem _ he, hpe⟩
    · have hoeq : o = op := by simpa using ho
      subst hoeq
      rw [hlab] at ht
      have hteq : t = fl := by simpa using ht
      exact Or.inr ⟨⟨fl, el, false⟩,
        by rw [hif1]; exact List.mem_cons_self _ _, by rw [hteq]; rfl⟩
  · intro t p hp
    rw [hlp1] at hp
    have := hinv.2.1 t p hp
    rw [hops1]
    simp only [List.length_append, List.length_cons, List.length_nil]
    omega
  · intro l' hl'
    rw [hloop1] at hl'
    rw [hlp1]
    exact hinv.2.2 l' hl'

theorem else_inv (stk : List IfEntry) (st2 : CompState) (fl el : Str)
    (hstack2 : st2.if_stack = ⟨fl, el, false⟩ :: stk)
    (hinv2 : CompInv st2) :
    CompInv { st2 with
      ops := st2.ops ++ [Op.GOTO el]
      label_positions :=
        updateA st2.label_positions fl (st2.ops ++ [Op.GOTO el]).length
      if_stack := ⟨fl, el, true⟩ :: stk } := by
  refine ⟨?_, ?_, ?_⟩
  · intro o ho t ht hgen
    rcases List.mem_append.mp ho with ho | ho
    · rcases hinv2.1 o ho t ht hgen with h | ⟨e, he, hpe⟩
      · exact Or.inl (lookupA_updateA_isSome _ _ _ _ h)
      · rw [hstack2] at he
        rcases List.mem_cons.mp he with he | he
        · subst he
          have hteq : t = fl := by rw [← hpe]; rfl
          subst hteq
          refine Or.inl ?_
          rw [lookupA_updateA_self]
          rfl
        · exact Or.inr ⟨e, List.mem_cons_of_mem _ he, hpe⟩
    · have hoeq : o = Op.GOTO el := by simpa using ho
      subst hoeq
      have hteq : t = el := by simpa [opLabelOperands] using ht
      exact Or.inr ⟨⟨fl, el, true⟩, List.mem_cons_self _ _,
        by rw [hteq]; rfl⟩
  · intro t p hp
    rcases lookupA_updateA_cases _ _ _ _ _ hp with h | h
    · have := hinv2.2.1 t p h
      simp only [List.length_append, List.length_cons, List.length_nil]
      omega
    · exact h ▸ le_refl _
  · intro l' hl'
    exact lookupA_updateA_isSome _ _ _ _ (hinv2.2.2 l' hl')

theorem endif_inv (stk : List IfEntry) (st2 : CompState) (e : IfEntry)
    (hstack2 : st2.if_stack = e :: stk)
    (hinv2 : CompInv st2) :
    CompInv { st2 with
      label_positions :=
        updateA st2.label_positions (pendingLabel e) st2.ops.length
      if_stack := stk } := by
  refine ⟨?_, ?_, ?_⟩
  · intro o ho t ht hgen
    rcases hinv2.1 o ho t ht hgen with h | ⟨e', he', hpe⟩
    · exact Or.inl (lookupA_updateA_isSome _ _ _ _ h)
    · rw [hstack2] at he'
      rcases List.mem_cons.mp he' with he' | he'
      · subst he'
        refine Or.inl ?_
        rw [← hpe, lookupA_updateA_self]
        rfl
      · exact Or.inr ⟨e', he', hpe⟩
  · intro t p hp
    rcases lookupA_updateA_cases _ _ _ _ _ hp with h | h
    · exact hinv2.2.1 t p h
    · exact h ▸ le_refl _
  · intro l' hl'
    exact lookupA_updateA_isSome _ _ _ _ (hinv2.2.2 l' hl')

theorem loopstart_inv (st : CompState) (hinv : CompInv st) :
    CompInv { st with
      loop_counter := st.loop_counter + 1
      label_positions := updateA st.label_positions
        (loopLabel (st.loop_counter + 1)) st.ops.length
      loop_stack := loopLabel (st.loop_counter + 1) :: st.loop_stack } := by
  refine ⟨?_, ?_, ?_⟩
  · intro o ho t ht hgen
    rcases hinv.1 o ho t ht hgen with h | ⟨e, he, hpe⟩
    · exact Or.inl (lookupA_updateA_isSome _ _ _ _ h)
    · exact Or.inr ⟨e, he, hpe⟩
  · intro t p hp
    rcases lookupA_updateA_cases _ _ _ _ _ hp with h | h
    · exact hinv.2.1 t p h
    · exact h ▸ le_refl _
  · intro l' hl'
    rcases List.mem_cons.mp hl' with hl' | hl'
    · subst hl'
      rw [lookupA_updateA_self]
      rfl
    · exact lookupA_updateA_isSome _ _ _ _ (hinv.2.2 l' hl')

theorem endloop_inv (stk : List Str) (st2 : CompState) (lbl : Str)
    (hstack2 : st2.loop_stack = lbl :: stk)
    (hinv2 : CompInv st2) :
    CompInv { st2 with
      ops := st2.ops ++ [Op.GOTO lbl]
      loop_stack := stk } := by
  refine ⟨?_, ?_, ?_⟩
  · intro o ho t ht hgen
    rcases List.mem_append.mp ho with ho | ho
    · rcases hinv2.1 o ho t ht hgen with h | ⟨e, he, hpe⟩
      · exact Or.inl h
      · exact Or.inr ⟨e, he, hpe⟩
    · have hoeq : o = Op.GOTO lbl := by simpa using ho
      subst hoeq
      have hteq : t = lbl := by simpa [opLabelOperands] using ht
      rw [hteq]
      exact Or.inl (hinv2.2.2 lbl
        (by rw [hstack2]; exact List.mem_cons_self _ _))
  · intro t p hp
    have := hinv2.2.1 t p hp
    simp only [List.length_append, List.length_cons, List.length_nil]
    omega
  · intro l' hl'
    exact hinv2.2.2 l' (by rw [hstack2]; exact List.mem_cons_of_mem _ hl')

/-- Compiling a well-formed stream from any state satisfying the label
invariant succeeds, preserves the stacks, extends the opcode stream, and
keeps the invariant and all recorded labels. -/
theorem compile_lines_bal :
    ∀ (ls : List Str), CBal ls →
      ∀ st : CompState, CompInv st →
        ∃ st' : CompState, compile_lines st ls = .ok st' ∧ CompInv st' ∧
          st'.if_stack = st.if_stack ∧
          st'.loop_stack = st.loop_stack ∧
          (∃ d, st'.ops = st.ops ++ d) ∧
          (∀ t, (lookupA st.label_positions t).isSome = true →
            (lookupA st'.label_positions t).isSome = true) := by
  intro ls hbal
  induction hbal with
  | nil =>
    intro st hinv
    exact ⟨st, rfl, hinv, rfl, rfl, ⟨[], by simp⟩, fun t h => h⟩
  | plain l rest hpl _ ih =>
    intro st hinv
    obtain ⟨st1, hcl, hif1, hloop1, ⟨d, hops1, hd⟩, hmono1, hpos1⟩ := hpl st
    have hinv1 := plain_inv st st1 d hif1 hloop1 hops1 hd hmono1 hpos1 hinv
    obtain ⟨st2, hc2, hinv2, hif2, hloop2, he2, hmono2⟩ := ih st1 hinv1
    refine ⟨st2, ?_, hinv2, by rw [hif2, hif1], by rw [hloop2, hloop1],
      ops_ext_trans ⟨d, hops1⟩ he2, fun t h => hmono2 t (hmono1 t h)⟩
    simp only [compile_lines, hcl]
    exact hc2
  | ifNoElse c body rest hifs _ _ ihbody ihrest =>
    intro st hinv
    obtain ⟨st1, fl, el, op, hcl, hif1, hloop1, hlp1, hops1, hlab⟩ := hifs st
    have hinv1 := ifpush_inv st st1 fl el op hif1 hloop1 hlp1 hops1 hlab hinv
    obtain ⟨st2, hc2, hinv2, hif2, hloop2, he2, hmono2⟩ := ihbody st1 hinv1
    have hstack2 : st2.if_stack = ⟨fl, el, false⟩ :: st.if_stack := by
      rw [hif2, hif1]
    have hc3 : compileLine st2 (strE "EndIf") =
        .ok { st2 with
              label_positions :=
                updateA st2.label_positions (pendingLabel ⟨fl, el, false⟩)
                  st2.ops.length
              if_stack := st.if_stack } := by
      rw [compileLine_EndIf, hstack2]
      rfl
    have hinv3 := endif_inv st.if_stack st2 ⟨fl, el, false⟩ hstack2 hinv2
    obtain ⟨st4, hc4, hinv4, hif4, hloop4, he4, hmono4⟩ := ihrest _ hinv3
    refine ⟨st4, ?_, hinv4, ?_, ?_, ?_, ?_⟩
    · simp only [compile_lines, hcl, compile_lines_append, hc2, hc3]
      exact hc4
    · rw [hif4]
    · rw [hloop4]
      show st2.loop_stack = st.loop_stack
      rw [hloop2, hloop1]
    · refine ops_ext_trans (ops_ext_trans ⟨[op], hops1⟩ he2) ?_
      exact ops_ext_trans ⟨[], by simp⟩ he4
    · intro t h
      refine hmono4 t ?_
      show (lookupA (updateA st2.label_positions
        (pendingLabel ⟨fl, el, false⟩) st2.ops.length) t).isSome = true
      exact lookupA_updateA_isSome _ _ _ _ (hmono2 t (by rw [hlp1]; exact h))
  | ifElse c thn els rest hifs _ _ _ ihthn ihels ihrest =>
    intro st hinv
    obtain ⟨st1, fl, el, op, hcl, hif1, hloop1, hlp1, hops1, hlab⟩ := hifs st
    have hinv1 := ifpush_inv st st1 fl el op hif1 hloop1 hlp1 hops1 hlab hinv
    obtain ⟨st2, hc2, hinv2, hif2, hloop2, he2, hmono2⟩ := ihthn st1 hinv1
    have hstack2 : st2.if_stack = ⟨fl, el, false⟩ :: st.if_stack := by
      rw [hif2, hif1]
    have hc3 : compileLine st2 (strE "Else") =
        .ok { st2 with
              ops := st2.ops ++ [Op.GOTO el]
              label_positions :=
                updateA st2.label_positions fl (st2.ops ++ [Op.GOTO el]).length
              if_stack := ⟨fl, el, true⟩ :: st.if_stack } := by
      rw [compileLine_Else, hstack2]
      rfl
    have hinv3 := else_inv st.if_stack st2 fl el hstack2 hinv2
    obtain ⟨st4, hc4, hinv4, hif4, hloop4, he4, hmono4⟩ := ihels _ hinv3
    have hstack4 : st4.if_stack = ⟨fl, el, true⟩ :: st.if_stack := by
      rw [hif4]
    have hc5 : compileLine st4 (strE "EndIf") =
        .ok { st4 with
              label_positions :=
                updateA st4.label_positions (pendingLabel ⟨fl, el, true⟩)
                  st4.ops.length
              if_stack := st.if_stack } := by
      rw [compileLine_EndIf, hstack4]
      rfl
    have hinv5 := endif_inv st.if_stack st4 ⟨fl, el, true⟩ hstack4 hinv4
    obtain ⟨st6, hc6, hinv6, hif6, hloop6, he6, hmono6⟩ := ihrest _ hinv5
    refine ⟨st6, ?_, hinv6, ?_, ?_, ?_, ?_⟩
    · simp only [compile_lines, hcl, compile_lines_append, hc2, hc3, hc4, hc5]
      exact hc6
    · rw [hif6]
    · rw [hloop6]
      show st4.loop_stack = st.loop_stack
      rw [hloop4]
      show st2.loop_stack = st.loop_stack
      rw [hloop2, hloop1]
    · refine ops_ext_trans (ops_ext_trans (ops_ext_trans
        (ops_ext_trans ⟨[op], hops1⟩ he2) ⟨[Op.GOTO el], rfl⟩) he4) ?_
      exact ops_ext_trans ⟨[], by simp⟩ he6
    · intro t h
      refine hmono6 t ?_
      show (lookupA (updateA st4.label_positions
        (pendingLabel ⟨fl, el, true⟩) st4.ops.length) t).isSome = true
      refine lookupA_updateA_isSome _ _ _ _ (hmono4 t ?_)
      show (lookupA (updateA st2.label_positions fl
        (st2.ops ++ [Op.GOTO el]).length) t).isSome = true
      exact lookupA_updateA_isSome _ _ _ _
        (hmono2 t (by rw [hlp1]; exact h))
  | loop body rest _ _ ihbody ihrest =>
    intro st hinv
    have hc1 : compileLine st (strE "Loop[FOREVER]") =
        .ok { st with
              loop_counter := st.loop_counter + 1
              label_positions := updateA st.label_positions
                (loopLabel (st.loop_counter + 1)) st.ops.length
              loop_stack := loopLabel (st.loop_counter + 1) ::
                st.loop_stack } := rfl
    have hinv1 := loopstart_inv st hinv
    obtain ⟨st2, hc2, hinv2, hif2, hloop2, he2, hmono2⟩ := ihbody _ hinv1
    have hstack2 : st2.loop_stack =
        loopLabel (st.loop_counter + 1) :: st.loop_stack := by
      rw [hloop2]
    have hc3 : compileLine st2 (strE "EndLoop") =
        .ok { st2 with
              ops := st2.ops ++ [Op.GOTO (loopLabel (st.loop_counter + 1))]
              loop_stack := st.loop_stack } := by
      rw [compileLine_EndLoop, hstack2]
      rfl
    have hinv3 := endloop_inv st.loop_stack st2
      (loopLabel (st.loop_counter + 1)) hstack2 hinv2
    obtain ⟨st4, hc4, hinv4, hif4, hloop4, he4, hmono4⟩ := ihrest _ hinv3
    refine ⟨st4, ?_, hinv4, ?_, ?_, ?_, ?_⟩
    · simp only [compile_lines, hc1, compile_lines_append, hc2, hc3]
      exact hc4
    · rw [hif4]
      show st2.if_stack = st.if_stack
      rw [hif2]
    · rw [hloop4]
    · refine ops_ext_trans (ops_ext_trans (ops_ext_trans ⟨[], by simp⟩ he2)
        ⟨[Op.GOTO (loopLabel (st.loop_counter + 1))], rfl⟩) ?_
      exact ops_ext_trans ⟨[], by simp⟩ he4
    · intro t h
      refine hmono4 t ?_
      show (lookupA st2.label_positions t).isSome = true
      refine hmono2 t ?_
      show (lookupA (updateA st.label_positions
        (loopLabel (st.loop_counter + 1)) st.ops.length) t).isSome = true
      exact lookupA_updateA_isSome _ _ _ _ h

theorem opAsmLines_operand_mem (vm : List (Str × Nat)) (op : Op)
    (ls : List Str) (h : opAsmLines vm op = .ok ls) :
    ∀ t ∈ opLabelOperands op, dwName t ∈ ls := by
  cases op with
  | IF_NE_STR v l tg =>
    intro t ht
    have hteq : t = tg := by simpa [opLabelOperands] using ht
    cases hlk : vmLookup vm v with
    | error n => simp [opAsmLines, hlk] at h
    | ok i =>
      simp only [opAsmLines, hlk, Except.ok.injEq] at h
      rw [hteq, ← h]
      simp
  | IF_NUM_VI v opc imm tg =>
    intro t ht
    have hteq : t = tg := by simpa [opLabelOperands] using ht
    cases hlk : vmLookup vm v with
    | error n => simp [opAsmLines, hlk] at h
    | ok i =>
      simp only [opAsmLines, hlk, Except.ok.injEq] at h
      rw [hteq, ← h]
      simp
  | IF_NUM_VV v opc w tg =>
    intro t ht
    have hteq : t = tg := by simpa [opLabelOperands] using ht
    cases hlk : vmLookup2 vm v w with
    | error n => simp [opAsmLines, hlk] at h
    | ok ij =>
      obtain ⟨i, j⟩ := ij
      simp only [opAsmLines, hlk, Except.ok.injEq] at h
      rw [hteq, ← h]
      simp
  | GOTO tg =>
    intro t ht
    have hteq : t = tg := by simpa [opLabelOperands] using ht
    simp only [opAsmLines, Except.ok.injEq] at h
    rw [hteq, ← h]
    simp
  | CALL tg =>
    intro t ht
    have hteq : t = tg := by simpa [opLabelOperands] using ht
    simp only [opAsmLines, Except.ok.injEq] at h
    rw [hteq, ← h]
    simp
  | _ =>
    intro t ht
    simp [opLabelOperands] at ht

theorem asmGo_operand_mem (vm lp : List (Str × Nat)) :
    ∀ (ops : List Op) (i : Nat) (L : List Str),
      asmGo vm lp i ops = .ok L →
      ∀ op ∈ ops, ∀ t ∈ opLabelOperands op, dwName t ∈ L := by
  intro ops
  induction ops with
  | nil =>
    intro i L h op hop
    simp at hop
  | cons o rest ih =>
    intro i L h op hop t ht
    cases hop1 : opAsmLines vm o with
    | error n => simp [asmGo, hop1] at h
    | ok ls =>
      cases htail : asmGo vm lp (i + 1) rest with
      | error n => simp [asmGo, hop1, htail] at h
      | ok tail =>
        simp only [asmGo, hop1, htail, Except.ok.injEq] at h
        rcases List.mem_cons.mp hop with hop | hop
        · subst hop
          have hm := opAsmLines_operand_mem vm op ls hop1 t ht
          rw [← h]
          simp [hm]
        · have hm := ih (i + 1) tail htail op hop t ht
          rw [← h]
          simp [hm]

theorem compInv_init : CompInv compInit :=
  ⟨fun op hop => absurd hop (List.not_mem_nil op),
   fun t p hp => by simp [compInit, lookupA] at hp,
   fun l hl => absurd hl (List.not_mem_nil l)⟩

/-- C3 as amended: for every well-formed stream (balanced `If`/`Loop`
structure over accepted statements), compilation succeeds, every
compiler-generated control-flow label (`IF_FALSE_n`/`IF_END_n`/`LOOP_n`)
carried as a jump operand is recorded in the label-position table, every
recorded position is at most the emitted opcode count, and the emitter
writes each jump/call label operand symbolically — the label name after
`dw` — leaving resolution to the assembler.  (`Goto`/`CallFunction`
targets are emitted without validation; see the counterexample.) -/
theorem C3_amended_generated_labels (lines : List Str) (hbal : CBal lines) :
    ∃ st : CompState, compile_long_to_vm lines [] = .ok st ∧
      (∀ op ∈ st.ops, ∀ t ∈ opLabelOperands op, isGenLabel t = true →
        (lookupA st.label_positions t).isSome = true) ∧
      (∀ t p, lookupA st.label_positions t = some p → p ≤ st.ops.length) ∧
      (∀ asm, build_vm_program_asm st = .ok asm →
        ∀ op ∈ st.ops, ∀ t ∈ opLabelOperands op, dwName t ∈ asm) := by
  obtain ⟨st, hc, hinv, hif, hloop, _, _⟩ :=
    compile_lines_bal lines hbal compInit compInv_init
  refine ⟨st, ?_, ?_, hinv.2.1, ?_⟩
  · unfold compile_long_to_vm
    rw [hc]
    rfl
  · intro op hop t ht hgen
    rcases hinv.1 op hop t ht hgen with h | ⟨e, he, _⟩
    · exact h
    · rw [hif] at he
      exact absurd he (List.not_mem_nil e)
  · intro asm hasm op hop t ht
    unfold build_vm_program_asm at hasm
    cases hgo : asmGo st.variables_map st.label_positions 0 st.ops with
    | error n => rw [hgo] at hasm; simp at hasm
    | ok body =>
      rw [hgo] at hasm
      simp only [Except.ok.injEq] at hasm
      have hmem := asmGo_operand_mem st.variables_map st.label_positions
        st.ops 0 body hgo op hop t ht
      rw [← hasm]
      simp [hmem]

theorem add_var_spec (st : CompState) (name : Str) :
    (add_var st name).ops = st.ops ∧
    (add_var st name).if_stack = st.if_stack ∧
    (add_var st name).loop_stack = st.loop_stack ∧
    (add_var st name).label_positions = st.label_positions ∧
    (add_var st name).if_counter = st.if_counter := by
  unfold add_var
  cases lookupA st.variables_map name <;> simp

theorem plainStep_ClearScreen : PlainStep (strE "ClearScreen") := by
  intro st
  refine ⟨emit st .CLEAR, rfl, rfl, rfl, ⟨[Op.CLEAR], rfl, ?_⟩,
    fun t h => h, fun t p hp => Or.inl hp⟩
  intro op hop t ht
  have hoeq : op = Op.CLEAR := by simpa using hop
  subst hoeq
  simp [opLabelOperands] at ht

theorem plainStep_LabelL : PlainStep (strE "Label[L]") := by
  intro st
  refine ⟨add_label st (strE "LBL_L"), rfl, rfl, rfl,
    ⟨[], by simp [add_label], by simp⟩, ?_, ?_⟩
  · intro t h
    exact lookupA_updateA_isSome _ _ _ _ h
  · intro t p hp
    rcases lookupA_updateA_cases _ _ _ _ _ hp with h | h
    · exact Or.inl h
    · exact Or.inr h

theorem plainStep_GotoL : PlainStep (strE "Goto[L]") := by
  intro st
  refine ⟨emit st (.GOTO (strE "LBL_L")), rfl, rfl, rfl,
    ⟨[Op.GOTO (strE "LBL_L")], rfl, ?_⟩, fun t h => h,
    fun t p hp => Or.inl hp⟩
  intro op hop t ht
  have hoeq : op = Op.GOTO (strE "LBL_L") := by simpa using hop
  subst hoeq
  have hteq : t = strE "LBL_L" := by simpa [opLabelOperands] using ht
  rw [hteq]
  decide

theorem ifStep_IfXgt5 : IfStep (strE "If[X] > 5") := by
  intro st
  obtain ⟨hops, hif, hloop, hlp, _⟩ := add_var_spec st (strE "X")
  refine ⟨_, ifFalseLabel ((add_var st (strE "X")).if_counter + 1),
    ifEndLabel ((add_var st (strE "X")).if_counter + 1),
    .IF_NUM_VI (strE "X") 2 5
      (ifFalseLabel ((add_var st (strE "X")).if_counter + 1)),
    rfl, ?_, ?_, ?_, ?_, rfl⟩
  · exact congrArg (List.cons _) hif
  · exact hloop
  · exact hlp
  · exact congrArg (fun l => l ++ [_]) hops

/-- The C3 witness program: a user label, an `If`/`Else`/`EndIf` block
containing a `Goto`, and a loop. -/
def c3lines : List Str :=
  [strE "Label[L]", strE "If[X] > 5", strE "ClearScreen", strE "Else",
   strE "Goto[L]", strE "EndIf", strE "Loop[FOREVER]", strE "ClearScreen",
   strE "EndLoop"]

def c3bal : CBal c3lines :=
  CBal.plain _ _ plainStep_LabelL
    (CBal.ifElse (strE "If[X] > 5") [strE "ClearScreen"] [strE "Goto[L]"]
      (strE "Loop[FOREVER]" ::
        ([strE "ClearScreen"] ++ strE "EndLoop" :: []))
      ifStep_IfXgt5
      (CBal.plain _ _ plainStep_ClearScreen CBal.nil)
      (CBal.plain _ _ plainStep_GotoL CBal.nil)
      (CBal.loop [strE "ClearScreen"] []
        (CBal.plain _ _ plainStep_ClearScreen CBal.nil) CBal.nil))

/-- Witness for the amended C3 at a concrete well-formed program. -/
theorem C3_amended_generated_labels_witness :
    CBal c3lines ∧
    (∃ st : CompState, compile_long_to_vm c3lines [] = .ok st ∧
      (∀ op ∈ st.ops, ∀ t ∈ opLabelOperands op, isGenLabel t = true →
        (lookupA st.label_positions t).isSome = true) ∧
      (∀ t p, lookupA st.label_positions t = some p → p ≤ st.ops.length) ∧
      (∀ asm, build_vm_program_asm st = .ok asm →
        ∀ op ∈ st.ops, ∀ t ∈ opLabelOperands op, dwName t ∈ asm)) :=
  ⟨c3bal, C3_amended_generated_labels c3lines c3bal⟩

end Long
